import Mathlib

/-!
# BitForce serial driver (`driver-bitforce.c`): shallow embedding

Bytes are natural numbers below 256; C buffers are lists of bytes that are read
with `getD _ 0` and written with `List.set`.  The outside world (serial line,
clock, host call-backs) is an explicit `World` value that every driver
operation threads through.
-/

namespace Bitforce

/-! ## Constants (`#define`s at the top of the driver) -/

def BITFORCE_SLEEP_MS : Nat := 500
def BITFORCE_TIMEOUT_S : Int := 7
def BITFORCE_TIMEOUT_MS : Int := BITFORCE_TIMEOUT_S * 1000
def BITFORCE_LONG_TIMEOUT_S : Int := 25
def BITFORCE_CHECK_INTERVAL_MS : Nat := 10
def WORK_CHECK_INTERVAL_MS : Nat := 50

/-- Values of `unsigned int` and `uint32_t` live modulo `2^32`. -/
def U32 : Nat := 2 ^ 32

/-! ## The outside world -/

/-- A `struct timeval`. -/
structure timeval where
  tv_sec : Int
  tv_usec : Int
deriving DecidableEq, Repr

/-- Reasons handed to the host's `dev_error` reporter. -/
inductive Reason where
  | REASON_DEV_THROTTLE
  | REASON_DEV_OVER_HEAT
  | REASON_DEV_COMMS_ERROR
deriving DecidableEq, Repr

/-- Everything the driver talks to.  The list-valued oracle fields are consumed
from the front, one entry per call of the corresponding primitive. -/
structure World where
  /-- successive outcomes of `read(fd, buf, 1)`: a byte, or `none` for a timeout;
  once the list is used up every further read times out -/
  rx : List (Option Nat)
  /-- byte strings passed to `write`, oldest first -/
  tx : List (List Nat)
  /-- successive results of `gettimeofday` -/
  clock : List timeval
  /-- successive results of `restart_wait` -/
  restarts : List Bool
  /-- successive results of `stale_wait` -/
  stales : List Int
  /-- successive results of `serial_open` -/
  opens : List Int
  /-- successive results of `mutex_trylock` -/
  trylocks : List Int
  /-- nonces passed to `submit_nonce`, oldest first -/
  sink : List Nat
  /-- the process-wide `hw_errors` counter -/
  hw_errors : Int
  /-- calls of `dev_error`, oldest first -/
  events : List Reason
  /-- bytes found in a local array before the function writes to it -/
  junk : List Nat
  /-- number of `BFgets` calls made so far (ghost counter) -/
  gets_calls : Nat

/-- An uninitialised local array of `n` bytes. -/
def stackbuf (w : World) (n : Nat) : List Nat :=
  (List.range n).map (fun i => w.junk.getD i 0)

/-- One `read(fd, buf, 1)` on the receive line: the byte read when the call
returned 1, and what is left on the line. -/
def read1 : List (Option Nat) → Option Nat × List (Option Nat)
  | [] => (none, [])
  | r :: rest => (r, rest)

/-! ## libc string functions on byte lists

A `char *` is the list of bytes from the pointer onwards; reading past the end
of the list yields NUL. -/

/-- The NUL-terminated string stored at the start of a buffer. -/
def cstr : List Nat → List Nat
  | [] => []
  | c :: cs => if c = 0 then [] else c :: cstr cs

/-- `tolower(c)` in the C locale. -/
def tolower (c : Nat) : Nat := if 65 ≤ c ∧ c ≤ 90 then c + 32 else c

/-- `strncasecmp(a, b, n)`. -/
def strncasecmp (a b : List Nat) : Nat → Int
  | 0 => 0
  | n + 1 =>
    let c1 := tolower (a.headD 0)
    let c2 := tolower (b.headD 0)
    if c1 ≠ c2 then (c1 : Int) - (c2 : Int)
    else if c1 = 0 then 0
    else strncasecmp a.tail b.tail n

/-- `strncmp(a, b, n)`. -/
def strncmp (a b : List Nat) : Nat → Int
  | 0 => 0
  | n + 1 =>
    let c1 := a.headD 0
    let c2 := b.headD 0
    if c1 ≠ c2 then (c1 : Int) - (c2 : Int)
    else if c1 = 0 then 0
    else strncmp a.tail b.tail n

/-- `memcmp(a, b, n)`. -/
def memcmp (a b : List Nat) : Nat → Int
  | 0 => 0
  | n + 1 =>
    let c1 := a.headD 0
    let c2 := b.headD 0
    if c1 ≠ c2 then (c1 : Int) - (c2 : Int)
    else memcmp a.tail b.tail n

/-- Does the string at `s` start with `needle` (a string without NUL)? -/
def starts : List Nat → List Nat → Bool
  | [], _ => true
  | n :: ns, s => s.headD 0 = n && starts ns s.tail

/-- `strstr(s, needle)`: offset of the first occurrence of `needle` in the
string at `s`, or `none` for a NULL result. -/
def strstr (s needle : List Nat) : Option Nat :=
  go s 0
where
  go : List Nat → Nat → Option Nat
    | [], off => if needle = [] then some off else none
    | c :: cs, off =>
      if starts needle (c :: cs) then some off
      else if c = 0 then none
      else go cs (off + 1)

/-- `strchr(s, ch)` for a non-NUL character. -/
def strchr (s : List Nat) (ch : Nat) : Option Nat :=
  go s 0
where
  go : List Nat → Nat → Option Nat
    | [], _ => none
    | c :: cs, off =>
      if c = ch then some off
      else if c = 0 then none
      else go cs (off + 1)

/-- `memcpy(dst + off, src, n)`. -/
def memcpy (dst : List Nat) (off : Nat) (src : List Nat) : Nat → List Nat
  | 0 => dst
  | n + 1 => (memcpy dst off src n).set (off + n) (src.getD n 0)

/-- `sprintf(dst + off, str)` for a format without conversions: the characters
and the terminating NUL. -/
def sprintf (dst : List Nat) (off : Nat) (str : List Nat) : List Nat :=
  memcpy dst off (str ++ [0]) (str.length + 1)

/-! ## Line transport -/

/-- The `do … while` loop of `BFgets`; `pos` is how far `buf` has advanced and
the third argument is `bufLen` on entry to the loop body.  (`bufLen = 0` on
entry would wrap around in C; every caller passes `sizeof(pdevbuf)`.) -/
def BFgets_loop (buf : List Nat) (pos : Nat) :
    Nat → List (Option Nat) → List Nat × Nat × List (Option Nat)
  | 0, rx => (buf.set pos 0, pos, rx)
  | bufLen + 1, rx =>
    let buf := buf.set pos 0
    if bufLen = 0 then (buf, pos, rx)
    else
      match read1 rx with
      | (none, rx1) => (buf, pos, rx1)
      | (some c, rx1) =>
        let buf := buf.set pos c
        if c ≠ 10 then BFgets_loop buf (pos + 1) bufLen rx1
        else (buf, pos + 1, rx1)

/-- The body of `BFgets(buf, bufLen, fd)` over the receive line: the buffer
afterwards and what is left on the line. -/
def BFgets_rx (buf : List Nat) (bufLen : Nat) (rx : List (Option Nat)) :
    List Nat × List (Option Nat) :=
  let r := BFgets_loop buf 0 bufLen rx
  (r.1.set r.2.1 0, r.2.2)

/-- `BFgets(buf, bufLen, fd)`. -/
def BFgets (buf : List Nat) (bufLen : Nat) (w : World) : List Nat × World :=
  let r := BFgets_rx buf bufLen w.rx
  (r.1, { w with rx := r.2, gets_calls := w.gets_calls + 1 })

/-- `BFwrite(fd, buf, bufLen)`; no caller looks at the result. -/
def BFwrite (w : World) (bytes : List Nat) : World :=
  { w with tx := w.tx ++ [bytes] }

/-! ## Protocol strings -/

/-- The command "ZGX". -/
def ZGX : List Nat := [90, 71, 88]
/-- The command "ZPX". -/
def ZPX : List Nat := [90, 80, 88]
/-- The command "ZDX". -/
def ZDX : List Nat := [90, 68, 88]
/-- The command "ZFX". -/
def ZFX : List Nat := [90, 70, 88]
/-- The command "ZLX". -/
def ZLX : List Nat := [90, 76, 88]
/-- The command "ZMX". -/
def ZMX : List Nat := [90, 77, 88]
/-- The string "SHA256". -/
def str_SHA256 : List Nat := [83, 72, 65, 50, 53, 54]
/-- The string "BUSY". -/
def str_BUSY : List Nat := [66, 85, 83, 89]
/-- The string ">>>ID: ". -/
def str_ID : List Nat := [62, 62, 62, 73, 68, 58, 32]
/-- The string ">>>". -/
def str_GT3 : List Nat := [62, 62, 62]
/-- The string ">>>>>>>>". -/
def str_GT8 : List Nat := [62, 62, 62, 62, 62, 62, 62, 62]
/-- The string "OK". -/
def str_OK : List Nat := [79, 75]
/-- The string "B". -/
def str_B : List Nat := [66]
/-- The string "N". -/
def str_N : List Nat := [78]
/-- The string "I". -/
def str_I : List Nat := [73]
/-- The string "-". -/
def str_dash : List Nat := [45]
/-- The string ",". -/
def str_comma : List Nat := [44]
/-- The string "TEMP". -/
def str_TEMP : List Nat := [84, 69, 77, 80]
/-- The string "NONCE-FOUND". -/
def str_NONCE_FOUND : List Nat := [78, 79, 78, 67, 69, 45, 70, 79, 85, 78, 68]

/-! ## Device session -/

/-- The two values of `kname`: `KNAME_WORK` is "full work", `KNAME_RANGE` is
"nonce range". -/
inductive Kname where
  | KNAME_WORK
  | KNAME_RANGE
deriving DecidableEq, Repr

/-- The values of `enum alive` this driver meets: the zero value left by
`calloc` and `LIFE_INIT2`. -/
inductive alive where
  | LIFE_WELL
  | LIFE_INIT2
deriving DecidableEq, Repr

/-- The fields of `struct cgpu_info` the driver reads or writes.  The float
statistics (`temp`, `avg_wait_f`, `avg_wait_d`) never steer control flow and
are left out, as are `api`, `device_path`, `init` and the mutex. -/
structure cgpu_info where
  device_fd : Int
  deven_enabled : Bool
  threads : Int
  nonce_range : Bool
  sleep_ms : Nat
  kname : Option Kname
  name : Option (List Nat)
  status : alive
  polling : Bool
  flash_led : Bool
  hw_errors : Int
  wait_ms : Nat
  nonces : Nat
  work_start_tv : timeval
deriving DecidableEq, Repr

/-- The fields of `struct work` the driver touches. -/
structure work where
  midstate : List Nat
  data : List Nat
  blk_nonce : Nat
deriving DecidableEq, Repr

/-- Outcome of a driver operation on a session.  `ret = none` means the
scripted world ran out of oracle entries before the operation returned; the
session and world are then those reached at that point. -/
structure Res (α : Type) where
  ret : Option α
  dev : cgpu_info
  world : World

/-- Outcome of a driver operation that also works on a `struct work`. -/
structure ResW (α : Type) where
  ret : Option α
  dev : cgpu_info
  wk : work
  world : World

/-- Modelled from the spec: `dev_error(bitforce, reason)` is defined outside
this file; the host supplies error-category reporters, so a call is recorded in
the world and leaves the fields the driver uses alone. -/
def dev_error (w : World) (r : Reason) : World :=
  { w with events := w.events ++ [r] }

/-- Modelled from the spec: `submit_nonce(thr, work, nonce)` is defined outside
this file; the nonce is handed to the host's nonce sink. -/
def submit_nonce (w : World) (nonce : Nat) : World :=
  { w with sink := w.sink ++ [nonce] }

/-- `bitforce->hw_errors++; ++hw_errors;` -/
def count_hw_error (s : cgpu_info) (w : World) : cgpu_info × World :=
  ({ s with hw_errors := s.hw_errors + 1 }, { w with hw_errors := w.hw_errors + 1 })

/-- `timersub(a, b, &result)` from `<sys/time.h>`. -/
def timersub (a b : timeval) : timeval :=
  let sec := a.tv_sec - b.tv_sec
  let usec := a.tv_usec - b.tv_usec
  if usec < 0 then ⟨sec - 1, usec + 1000000⟩ else ⟨sec, usec⟩

/-! ## Buffer flush -/

/-- The `do … while (pdevbuf[0] && (++count < 10))` loop of
`bitforce_clear_buffer`; the fuel is never used up when it starts at 10 with
`count = 0`. -/
def bitforce_clear_buffer_loop (pdevbuf : List Nat) (count : Nat) : Nat → World → World
  | 0, w => w
  | fuel + 1, w =>
    let r := BFgets (pdevbuf.set 0 0) 256 w
    if r.1.headD 0 ≠ 0 ∧ count + 1 < 10 then
      bitforce_clear_buffer_loop r.1 (count + 1) fuel r.2
    else r.2

/-- `bitforce_clear_buffer(bitforce)`. -/
def bitforce_clear_buffer (s : cgpu_info) (w : World) : World :=
  if s.device_fd = 0 then w
  else bitforce_clear_buffer_loop (stackbuf w 256) 0 10 w

/-! ## Discovery -/

/-- The name extraction shared by `bitforce_detect_one` and `bitforce_init`:
`if (!memcmp(pdevbuf, ">>>ID: ", 7) && (s = strstr(pdevbuf + 3, ">>>")))
 { s[0] = 0; name = strdup(pdevbuf + 7); }`; `none` when the test fails. -/
def extract_name (pdevbuf : List Nat) : Option (List Nat) :=
  if memcmp pdevbuf str_ID 7 = 0 then
    match strstr (pdevbuf.drop 3) str_GT3 with
    | none => none
    | some off => some (cstr ((pdevbuf.set (3 + off) 0).drop 7))
  else none

/-- `bitforce_detect_one(devpath)`: `some dev` is the device handed to
`add_cgpu`, `none` a rejected path. -/
def bitforce_detect_one (opt_bfl_noncerange : Bool) (w : World) :
    Option (Option cgpu_info) × World :=
  match w.opens with
  | [] => (none, w)
  | fdDev :: os =>
    let w := { w with opens := os }
    if fdDev = -1 then (some none, w)
    else
      let w := BFwrite w ZGX
      let r := BFgets ((stackbuf w 256).set 0 0) 256 w
      let pdevbuf := r.1
      let w := r.2
      if pdevbuf.headD 0 = 0 then (some none, w)
      else if strstr pdevbuf str_SHA256 = none then (some none, w)
      else
        let bitforce : cgpu_info :=
          { device_fd := 0, deven_enabled := true, threads := 1,
            nonce_range := opt_bfl_noncerange,
            sleep_ms := if opt_bfl_noncerange then BITFORCE_SLEEP_MS
                        else BITFORCE_SLEEP_MS * 5,
            kname := some (if opt_bfl_noncerange then Kname.KNAME_RANGE
                           else Kname.KNAME_WORK),
            name := extract_name pdevbuf,
            status := alive.LIFE_WELL, polling := false, flash_led := false,
            hw_errors := 0, wait_ms := 0, nonces := 0, work_start_tv := ⟨0, 0⟩ }
        (some (some bitforce), w)

/-! ## Session lifecycle -/

/-- `bitforce_thread_prepare(thr)`. -/
def bitforce_thread_prepare (s : cgpu_info) (w : World) : Res Bool :=
  match w.opens with
  | [] => ⟨none, s, w⟩
  | fdDev :: os =>
    let w := { w with opens := os }
    if fdDev = -1 then ⟨some false, s, w⟩
    else
      let s := { s with device_fd := fdDev }
      match w.clock with
      | [] => ⟨none, s, w⟩
      | _ :: cs => ⟨some true, { s with status := alive.LIFE_INIT2 }, { w with clock := cs }⟩

/-- The `do … while (strstr(pdevbuf, "BUSY") && (retries * 10 < BITFORCE_TIMEOUT_MS))`
loop of `bitforce_init`: `none` when the loop returned from the function, else
the reply buffer.  The fuel is never used up when it starts at 700. -/
def bitforce_init_loop (pdevbuf : List Nat) (retries : Int) :
    Nat → World → Option (List Nat) × World
  | 0, w => (none, w)
  | fuel + 1, w =>
    let w := BFwrite w ZGX
    let r := BFgets (pdevbuf.set 0 0) 256 w
    if r.1.headD 0 = 0 then (none, r.2)
    else
      let retries := retries + 1
      if strstr r.1 str_BUSY ≠ none ∧ retries * 10 < BITFORCE_TIMEOUT_MS then
        bitforce_init_loop r.1 retries fuel r.2
      else (some r.1, r.2)

/-- `bitforce_init(bitforce)`, also the `reinit_device` and `thread_enable`
entry. -/
def bitforce_init (s : cgpu_info) (w : World) : Res Unit :=
  let w := bitforce_clear_buffer s w
  let s := { s with device_fd := 0 }
  match w.opens with
  | [] => ⟨none, s, w⟩
  | fdDev :: os =>
    let w := { w with opens := os }
    if fdDev = -1 then ⟨some (), s, w⟩
    else
      match bitforce_init_loop (stackbuf w 256) 0 700 w with
      | (none, w) => ⟨some (), s, w⟩
      | (some pdevbuf, w) =>
        if strstr pdevbuf str_SHA256 = none then ⟨some (), s, w⟩
        else
          let s := match extract_name pdevbuf with
            | some nm => { s with name := some nm }
            | none => s
          ⟨some (), { s with device_fd := fdDev, sleep_ms := BITFORCE_SLEEP_MS }, w⟩

/-- `bitforce_shutdown(thr)`. -/
def bitforce_shutdown (s : cgpu_info) : cgpu_info :=
  { s with device_fd := 0 }

/-- `bitforce_identify(bitforce)`. -/
def bitforce_identify (s : cgpu_info) : cgpu_info :=
  { s with flash_led := true }

/-! ## Auxiliary operations -/

/-- `bitforce_flash_led(bitforce)`. -/
def bitforce_flash_led (s : cgpu_info) (w : World) : Res Unit :=
  if s.device_fd = 0 then ⟨some (), s, w⟩
  else if s.polling then ⟨some (), s, w⟩
  else
    match w.trylocks with
    | [] => ⟨none, s, w⟩
    | l :: ls =>
      let w := { w with trylocks := ls }
      if l ≠ 0 then ⟨some (), s, w⟩
      else ⟨some (), { s with flash_led := false }, BFwrite w ZMX⟩

/-- `bitforce_get_temp(bitforce)`, also the `get_stats` entry.  The parsed
temperature itself is not kept. -/
def bitforce_get_temp (s : cgpu_info) (w : World) : Res Bool :=
  if s.device_fd = 0 then ⟨some false, s, w⟩
  else if s.polling then ⟨some true, s, w⟩
  else if s.flash_led then
    let r := bitforce_flash_led s w
    ⟨r.ret.map (fun _ => true), r.dev, r.world⟩
  else
    match w.trylocks with
    | [] => ⟨none, s, w⟩
    | l :: ls =>
      let w := { w with trylocks := ls }
      if l ≠ 0 then ⟨some false, s, w⟩
      else
        let w := BFwrite w ZLX
        let r := BFgets ((stackbuf w 256).set 0 0) 256 w
        let pdevbuf := r.1
        let w := r.2
        if pdevbuf.headD 0 = 0 then
          let sw := count_hw_error s w
          ⟨some false, sw.1, sw.2⟩
        else if strncasecmp pdevbuf str_TEMP 4 = 0 ∧ strchr (pdevbuf.drop 4) 58 ≠ none then
          ⟨some true, s, w⟩
        else
          let w := dev_error w Reason.REASON_DEV_THROTTLE
          let sw := count_hw_error s w
          ⟨some false, sw.1, bitforce_clear_buffer sw.1 sw.2⟩

/-! ## Work submission -/

/-- The four bytes of a 32-bit value, most significant first. -/
def be32 (x : Nat) : List Nat :=
  [x / 2 ^ 24 % 256, x / 2 ^ 16 % 256, x / 2 ^ 8 % 256, x % 256]

/-- `*(uint32_t *)(ob + off) = htobe32(x)`: a four-byte store of `x`, most
significant byte first. -/
def put_be32 (ob : List Nat) (off : Nat) (x : Nat) : List Nat :=
  memcpy ob off (be32 x) 4

/-- The frame construction of `bitforce_send_work` (from the first `sprintf`
to the `BFwrite` of the frame): the session and work afterwards and the bytes
handed to `BFwrite`. -/
def bitforce_build_frame (ob : List Nat) (s : cgpu_info) (wk : work) :
    cgpu_info × work × List Nat :=
  let ob := sprintf ob 0 str_GT8
  let ob := memcpy ob 8 wk.midstate 32
  let ob := memcpy ob (8 + 32) (wk.data.drop 64) 12
  if s.nonce_range = false then
    let ob := sprintf ob (8 + 32 + 12) str_GT8
    ({ s with nonces := 0xffffffff }, { wk with blk_nonce := 0xffffffff }, ob.take 60)
  else
    let ob := put_be32 ob (8 + 32 + 12) wk.blk_nonce
    let nonces := 0x33333332
    let ob := put_be32 ob (8 + 32 + 12 + 4) ((wk.blk_nonce + nonces) % U32)
    let blk_nonce := (wk.blk_nonce + (nonces + 1) % U32) % U32
    let ob := sprintf ob (8 + 32 + 12 + 8) str_GT8
    ({ s with nonces := nonces }, { wk with blk_nonce := blk_nonce }, ob.take 68)

/-- The part of `bitforce_send_work` after the device answered `OK` to the
start command: build the frame in `ob`, write it, read the second reply. -/
def bitforce_send_frame (ob pdevbuf : List Nat) (s : cgpu_info) (wk : work) (w : World) :
    ResW Bool :=
  let r := bitforce_build_frame ob s wk
  let s := r.1
  let wk := r.2.1
  let g := BFgets (pdevbuf.set 0 0) 256 (BFwrite w r.2.2)
  let pdevbuf := g.1
  let w := g.2
  if pdevbuf.headD 0 = 0 then ⟨some false, s, wk, w⟩
  else if strncasecmp pdevbuf str_OK 2 ≠ 0 then ⟨some false, s, wk, w⟩
  else
    match w.clock with
    | [] => ⟨none, s, wk, w⟩
    | now :: cs => ⟨some true, { s with work_start_tv := now }, wk, { w with clock := cs }⟩

/-- The body of `bitforce_send_work` from the label `re_send` on; one unit of
fuel per pass through the label. -/
def bitforce_send_work_go (ob pdevbuf : List Nat) :
    Nat → cgpu_info → work → World → ResW Bool
  | 0, s, wk, w => ⟨none, s, wk, w⟩
  | fuel + 1, s, wk, w =>
    let w := BFwrite w (if s.nonce_range then ZPX else ZDX)
    let g := BFgets (pdevbuf.set 0 0) 256 w
    let pdevbuf := g.1
    let w := g.2
    if pdevbuf.headD 0 = 0 ∨ strncasecmp pdevbuf str_B 1 = 0 then
      match w.restarts with
      | [] => ⟨none, s, wk, w⟩
      | r :: rs =>
        let w := { w with restarts := rs }
        if ¬ r then ⟨some false, s, wk, w⟩
        else bitforce_send_work_go ob pdevbuf fuel s wk w
    else if strncasecmp pdevbuf str_OK 2 ≠ 0 then
      if s.nonce_range then
        let s := { s with nonce_range := false, sleep_ms := s.sleep_ms * 5 % U32,
                          kname := some Kname.KNAME_WORK }
        bitforce_send_work_go ob pdevbuf fuel s wk w
      else ⟨some false, s, wk, w⟩
    else bitforce_send_frame ob pdevbuf s wk w

/-- `bitforce_send_work(thr, work)`.  Every pass through `re_send` but one
consumes a `restart_wait` result, so the fuel given here is never the reason
for a `none`. -/
def bitforce_send_work (s : cgpu_info) (wk : work) (w : World) : ResW Bool :=
  if s.device_fd = 0 then ⟨some false, s, wk, w⟩
  else
    let frame := stackbuf w (70 + 256)
    bitforce_send_work_go (frame.take 70) (frame.drop 70) (w.restarts.length + 2) s wk w

/-! ## Result polling -/

/-- Where the poll loop of `bitforce_get_result` leaves the function. -/
inductive Poll where
  /-- the scripted world ran out -/
  | stuck (dev : cgpu_info) (world : World)
  /-- a `return` inside the loop -/
  | done (ret : Int) (dev : cgpu_info) (world : World)
  /-- the `break`, with the reply and the elapsed time -/
  | reply (pdevbuf : List Nat) (elapsed : timeval) (dev : cgpu_info) (world : World)

/-- The session at the point where the poll loop was left. -/
def Poll.dev : Poll → cgpu_info
  | Poll.stuck s _ => s
  | Poll.done _ s _ => s
  | Poll.reply _ _ s _ => s

/-- The world at the point where the poll loop was left. -/
def Poll.world : Poll → World
  | Poll.stuck _ w => w
  | Poll.done _ _ w => w
  | Poll.reply _ _ _ w => w

/-- The first `while (1)` loop of `bitforce_get_result`. -/
def bitforce_get_result_poll (pdevbuf : List Nat) : Nat → cgpu_info → World → Poll
  | 0, s, w => Poll.stuck s w
  | fuel + 1, s, w =>
    let w := BFwrite w ZFX
    let g := BFgets (pdevbuf.set 0 0) 256 w
    let pdevbuf := g.1
    let w := g.2
    match w.clock with
    | [] => Poll.stuck s w
    | now :: cs =>
      let w := { w with clock := cs }
      let elapsed := timersub now s.work_start_tv
      if elapsed.tv_sec ≥ BITFORCE_LONG_TIMEOUT_S then Poll.done 0 s w
      else if pdevbuf.headD 0 ≠ 0 ∧ strncasecmp pdevbuf str_B 1 ≠ 0 then
        Poll.reply pdevbuf elapsed s w
      else
        let delay_time_ms :=
          if pdevbuf.headD 0 ≠ 0 then BITFORCE_CHECK_INTERVAL_MS
          else 2 * WORK_CHECK_INTERVAL_MS
        match w.stales with
        | [] => Poll.stuck s w
        | v :: vs =>
          let w := { w with stales := vs }
          if v ≠ 0 then Poll.done 0 s w
          else
            bitforce_get_result_poll pdevbuf fuel
              { s with wait_ms := (s.wait_ms + delay_time_ms) % U32 } w

/-- The timing adjustment of `bitforce_get_result` (the branch taken for a
reply that starts with `N`), on `unsigned int` fields. -/
def bitforce_tune (s : cgpu_info) : cgpu_info :=
  if s.wait_ms > (s.sleep_ms + WORK_CHECK_INTERVAL_MS * 2) % U32 then
    { s with sleep_ms := (s.sleep_ms + (s.wait_ms + U32 - s.sleep_ms) % U32 / 2) % U32 }
  else if s.wait_ms = s.sleep_ms then
    if s.sleep_ms > WORK_CHECK_INTERVAL_MS then
      { s with sleep_ms := s.sleep_ms - WORK_CHECK_INTERVAL_MS }
    else if s.sleep_ms > BITFORCE_CHECK_INTERVAL_MS then
      { s with sleep_ms := s.sleep_ms - BITFORCE_CHECK_INTERVAL_MS }
    else s
  else s

/-- Value of one hexadecimal digit. -/
def hexval (c : Nat) : Option Nat :=
  if 48 ≤ c ∧ c ≤ 57 then some (c - 48)
  else if 65 ≤ c ∧ c ≤ 70 then some (c - 55)
  else if 97 ≤ c ∧ c ≤ 102 then some (c - 87)
  else none

/-- Modelled from the spec: `hex2bin(p, hexstr, len)` is defined outside this
file; it decodes two hex digits per byte into `p`, and here it stops at the
first pair that is not two hex digits, leaving the rest of `p` as it was. -/
def hex2bin (p hexstr : List Nat) : Nat → List Nat
  | 0 => p
  | len + 1 =>
    match hexval (hexstr.headD 0), hexval (hexstr.tail.headD 0) with
    | some hi, some lo => (16 * hi + lo) :: hex2bin p.tail (hexstr.drop 2) len
    | _, _ => p

/-- `be32toh(nonce)` read off the four bytes of `nonce` in memory. -/
def be32toh_mem (mem : List Nat) : Nat :=
  mem.getD 0 0 * 2 ^ 24 + mem.getD 1 0 * 2 ^ 16 + mem.getD 2 0 * 2 ^ 8 + mem.getD 3 0

/-- The four bytes of a `uint32_t` in memory on a little-endian host. -/
def store_u32 (x : Nat) : List Nat :=
  [x % 256, x / 2 ^ 8 % 256, x / 2 ^ 16 % 256, x / 2 ^ 24 % 256]

/-- The second `while (1)` loop of `bitforce_get_result`: `off` is
`pnoncebuf - pdevbuf` and `nonce` the four bytes of the local `nonce`.  The
loop goes on only while `pnoncebuf[8]` is a comma; from the 28th pass on that
byte lies beyond the 256-byte array (read as NUL here), so the fuel of 29 the
caller gives is never used up. -/
def bitforce_get_result_nonces (pdevbuf : List Nat) :
    Nat → Nat → List Nat → cgpu_info → work → World → cgpu_info × work × World
  | 0, _, _, s, wk, w => (s, wk, w)
  | fuel + 1, off, nonce, s, wk, w =>
    let pnoncebuf := pdevbuf.drop off
    let nonce := be32toh_mem (hex2bin nonce pnoncebuf 4)
    let r : cgpu_info × work :=
      if s.nonce_range ∧ (nonce ≥ wk.blk_nonce ∨
          (wk.blk_nonce > 0 ∧
            nonce < (wk.blk_nonce + U32 - s.nonces + U32 - 1) % U32)) then
        ({ s with nonce_range := false, sleep_ms := s.sleep_ms * 5 % U32,
                  kname := some Kname.KNAME_WORK },
         { wk with blk_nonce := 0xffffffff })
      else (s, wk)
    let w := submit_nonce w nonce
    if strncmp (pnoncebuf.drop 8) str_comma 1 ≠ 0 then (r.1, r.2, w)
    else bitforce_get_result_nonces pdevbuf fuel (off + 9) (store_u32 nonce) r.1 r.2 w

/-- The end of `bitforce_get_result`, from the `applog` "waited … until" on. -/
def bitforce_get_result_parse (pdevbuf : List Nat) (s : cgpu_info) (wk : work) (w : World) :
    ResW Int :=
  if strncasecmp (pdevbuf.drop 2) str_dash 1 = 0 then ⟨some s.nonces, s, wk, w⟩
  else if strncasecmp pdevbuf str_I 1 = 0 then ⟨some 0, s, wk, w⟩
  else if strncasecmp pdevbuf str_NONCE_FOUND 11 ≠ 0 then
    let sw := count_hw_error s w
    ⟨some 0, sw.1, wk, bitforce_clear_buffer sw.1 sw.2⟩
  else
    let r := bitforce_get_result_nonces pdevbuf 29 12 ((stackbuf w 260).drop 256) s wk w
    ⟨some r.1.nonces, r.1, r.2.1, r.2.2⟩

/-- The part of `bitforce_get_result` after the poll loop broke out with a
reply. -/
def bitforce_get_result_reply (pdevbuf : List Nat) (elapsed : timeval)
    (s : cgpu_info) (wk : work) (w : World) : ResW Int :=
  if elapsed.tv_sec > BITFORCE_TIMEOUT_S then
    let w := dev_error w Reason.REASON_DEV_OVER_HEAT
    let sw := count_hw_error s w
    if strncasecmp pdevbuf str_NONCE_FOUND 11 ≠ 0 then ⟨some 0, sw.1, wk, sw.2⟩
    else bitforce_get_result_parse pdevbuf sw.1 wk sw.2
  else if strncasecmp pdevbuf str_N 1 = 0 then
    bitforce_get_result_parse pdevbuf (bitforce_tune s) wk w
  else bitforce_get_result_parse pdevbuf s wk w

/-- `bitforce_get_result(thr, work)`.  Every pass of the poll loop consumes a
`gettimeofday` result, so the fuel given here is never the reason for a
`none`. -/
def bitforce_get_result (s : cgpu_info) (wk : work) (w : World) : ResW Int :=
  if s.device_fd = 0 then ⟨some (-1), s, wk, w⟩
  else
    match bitforce_get_result_poll (stackbuf w 256) (w.clock.length + 1) s w with
    | Poll.stuck s w => ⟨none, s, wk, w⟩
    | Poll.done v s w => ⟨some v, s, wk, w⟩
    | Poll.reply pdevbuf elapsed s w => bitforce_get_result_reply pdevbuf elapsed s wk w

/-! ## Scan cycle -/

/-- The code of `bitforce_scanhash` from the label `commerr` on. -/
def bitforce_commerr (s : cgpu_info) (wk : work) (w : World) : ResW Int :=
  let w := dev_error w Reason.REASON_DEV_COMMS_ERROR
  let sw := count_hw_error s w
  let s := sw.1
  let w := sw.2
  match w.opens with
  | [] => ⟨none, s, wk, w⟩
  | fd :: os =>
    let w := { w with opens := os }
    let s := { s with device_fd := fd }
    if fd = -1 then ⟨some (-1), s, wk, w⟩
    else ⟨some 0, s, wk, bitforce_clear_buffer s w⟩

/-- `bitforce_scanhash(thr, work, max_nonce)`; `work_restart` is the value of
`thr->work_restart` read after a failed submission. -/
def bitforce_scanhash (work_restart : Bool) (s : cgpu_info) (wk : work) (w : World) :
    ResW Int :=
  let r := bitforce_send_work s wk w
  match r.ret with
  | none => ⟨none, r.dev, r.wk, r.world⟩
  | some false =>
    if work_restart then ⟨some 0, r.dev, r.wk, r.world⟩
    else bitforce_commerr r.dev r.wk r.world
  | some true =>
    match r.world.stales with
    | [] => ⟨none, r.dev, r.wk, r.world⟩
    | v :: vs =>
      let w := { r.world with stales := vs }
      if v ≠ 0 then ⟨some 0, r.dev, r.wk, w⟩
      else
        let s := { r.dev with wait_ms := r.dev.sleep_ms }
        let g := bitforce_get_result { s with polling := true } r.wk w
        let s := { g.dev with polling := false }
        match g.ret with
        | none => ⟨none, g.dev, g.wk, g.world⟩
        | some ret =>
          if ret = -1 then bitforce_commerr s g.wk g.world
          else ⟨some ret, s, g.wk, g.world⟩

/-! ## Driver operations as a transition system -/

/-- The operations the host may invoke on a discovered session. -/
inductive Op where
  | send_work (wk : work)
  | get_result (wk : work)
  | scanhash (work_restart : Bool) (wk : work)
  | init
  | get_temp
  | flash_led
  | identify
  | shutdown
  | thread_prepare

/-- Session and world after one operation. -/
def run_op (sw : cgpu_info × World) : Op → cgpu_info × World
  | Op.send_work wk => ((bitforce_send_work sw.1 wk sw.2).dev, (bitforce_send_work sw.1 wk sw.2).world)
  | Op.get_result wk => ((bitforce_get_result sw.1 wk sw.2).dev, (bitforce_get_result sw.1 wk sw.2).world)
  | Op.scanhash b wk => ((bitforce_scanhash b sw.1 wk sw.2).dev, (bitforce_scanhash b sw.1 wk sw.2).world)
  | Op.init => ((bitforce_init sw.1 sw.2).dev, (bitforce_init sw.1 sw.2).world)
  | Op.get_temp => ((bitforce_get_temp sw.1 sw.2).dev, (bitforce_get_temp sw.1 sw.2).world)
  | Op.flash_led => ((bitforce_flash_led sw.1 sw.2).dev, (bitforce_flash_led sw.1 sw.2).world)
  | Op.identify => (bitforce_identify sw.1, sw.2)
  | Op.shutdown => (bitforce_shutdown sw.1, sw.2)
  | Op.thread_prepare => ((bitforce_thread_prepare sw.1 sw.2).dev, (bitforce_thread_prepare sw.1 sw.2).world)

/-- Session and world after a sequence of operations. -/
def run_ops (sw : cgpu_info × World) (ops : List Op) : cgpu_info × World :=
  ops.foldl run_op sw

/-! ## Vocabulary for stating the properties -/

/-- A world in which only the receive line and the local-array garbage are set. -/
def quiet (rx : List (Option Nat)) (junk : List Nat) : World :=
  { rx := rx, tx := [], clock := [], restarts := [], stales := [], opens := [],
    trylocks := [], sink := [], hw_errors := 0, events := [], junk := junk,
    gets_calls := 0 }

/-- The number written by a string of hex digits, first digit most significant. -/
def hex_number (g : List Nat) : Nat :=
  g.foldl (fun acc c => 16 * acc + (hexval c).getD 0) 0

/-- The world after one poll exchange: "ZFX" written, one line consumed up to
`rest`, one clock reading taken. -/
def after_poll (w : World) (rest : List (Option Nat)) (cs : List timeval) : World :=
  { w with tx := w.tx ++ [ZFX], rx := rest, clock := cs, gets_calls := w.gets_calls + 1 }

/-- A poll that does not end the poll loop: the read timed out (`line = none`)
or the device sent the given line, which begins with `B`; `now` is the clock
reading taken after the read. -/
structure Waiting where
  line : Option (List Nat)
  now : timeval

/-- What arrives on the receive line during a run of waiting polls. -/
def waiting_rx : List Waiting → List (Option Nat)
  | [] => []
  | p :: ps =>
    (match p.line with
      | none => [none]
      | some l => l.map some ++ [some 10]) ++ waiting_rx ps

/-- A waiting poll for a job submitted at `start`: it happens before the long
timeout, and a line, if any, is non-empty, begins with `B` or `b`, has no
newline inside and fits the buffer. -/
def waiting_ok (start : timeval) (p : Waiting) : Prop :=
  (timersub p.now start).tv_sec < BITFORCE_LONG_TIMEOUT_S ∧
  match p.line with
  | none => True
  | some l =>
    l.headD 0 ≠ 0 ∧ tolower (l.headD 0) = 98 ∧ (∀ c ∈ l, c ≠ 10) ∧ l.length + 2 ≤ 256

/-- The session `s2` differs from `s` at most in `wait_ms`. -/
def waited (s s2 : cgpu_info) : Prop :=
  s2 = { s with wait_ms := s2.wait_ms }

/-- The world `w2` differs from `w` at most in what polling touches: the two
directions of the serial line, the clock and `stale_wait` oracles and the count
of `BFgets` calls. -/
def polled (w w2 : World) : Prop :=
  w2 = { w with rx := w2.rx, tx := w2.tx, clock := w2.clock, stales := w2.stales,
                gets_calls := w2.gets_calls }

/-- Groups of characters joined by single commas. -/
def comma_joined : List (List Nat) → List Nat
  | [] => []
  | [g] => g
  | g :: gs => g ++ 44 :: comma_joined gs

/-- The strings that `n` successive `BFgets` calls on a 256-byte buffer would
deliver from a receive line. -/
def read_lines : Nat → List (Option Nat) → List (List Nat)
  | 0, _ => []
  | n + 1, rx =>
    let r := BFgets_rx (List.replicate 256 0) 256 rx
    cstr r.1 :: read_lines n r.2

/-- Between `w` and `w2` the driver wrote only 3-byte commands and 60-byte
frames. -/
def wrote_full_range (w w2 : World) : Prop :=
  ∃ extra, w2.tx = w.tx ++ extra ∧ ∀ m ∈ extra, m.length = 3 ∨ m.length = 60

/-- One pass of `bitforce_send_work` through `re_send` that does not reach the
frame, named by what the device sent in answer to the start command: nothing
(the read timed out), a line that begins with `B`, or a non-empty line that
begins neither with `B` nor with "OK". -/
inductive Attempt where
  | timeout
  | busy (line : List Nat)
  | refused (line : List Nat)

/-- What arrives on the receive line during such passes. -/
def attempts_rx : List Attempt → List (Option Nat)
  | [] => []
  | Attempt.timeout :: rest => none :: attempts_rx rest
  | Attempt.busy l :: rest => l.map some ++ some 10 :: attempts_rx rest
  | Attempt.refused l :: rest => l.map some ++ some 10 :: attempts_rx rest

/-- A line of text that fits the reply buffer: no newline inside and at most
254 bytes, so that the newline and the NUL go in after it. -/
def reply_fits (l : List Nat) : Prop :=
  (∀ c ∈ l, c ≠ 10) ∧ l.length + 2 ≤ 256

/-- Does the line begin, case-insensitively, with "OK"? -/
def begins_OK (l : List Nat) : Prop :=
  tolower (l.getD 0 0) = 111 ∧ tolower (l.getD 1 0) = 107

/-- The passes are ones the driver retries after, starting in the given mode
(`true` is nonce-range mode): a busy line begins with `B` or `b`; a refused
line does not begin with a NUL byte (`headD 10`: an empty line begins with its
newline), nor with `B`, nor with "OK", and it happens in nonce-range mode only
(in full-range mode it ends the call) and leaves full-range mode behind. -/
def attempts_ok : Bool → List Attempt → Prop
  | _, [] => True
  | range, Attempt.timeout :: rest => attempts_ok range rest
  | range, Attempt.busy l :: rest =>
    reply_fits l ∧ tolower (l.headD 0) = 98 ∧ attempts_ok range rest
  | range, Attempt.refused l :: rest =>
    range = true ∧ reply_fits l ∧ l.headD 10 ≠ 0 ∧ tolower (l.headD 0) ≠ 98 ∧
      ¬ begins_OK l ∧ attempts_ok false rest

/-- The mode in which the pass after the given ones runs. -/
def mode_after : Bool → List Attempt → Bool
  | range, [] => range
  | range, Attempt.timeout :: rest => mode_after range rest
  | range, Attempt.busy _ :: rest => mode_after range rest
  | _, Attempt.refused _ :: rest => mode_after false rest

/-- The start command of a mode: "ZPX" in nonce-range mode, "ZDX" otherwise. -/
def start_cmd (range : Bool) : List Nat :=
  if range then [90, 80, 88] else [90, 68, 88]

/-- The start commands the passes send, one each. -/
def attempts_cmds : Bool → List Attempt → List (List Nat)
  | _, [] => []
  | range, Attempt.timeout :: rest => start_cmd range :: attempts_cmds range rest
  | range, Attempt.busy _ :: rest => start_cmd range :: attempts_cmds range rest
  | range, Attempt.refused _ :: rest => start_cmd range :: attempts_cmds false rest

/-- The number of passes that end in a `restart_wait`. -/
def attempts_waits : List Attempt → Nat
  | [] => 0
  | Attempt.timeout :: rest => attempts_waits rest + 1
  | Attempt.busy _ :: rest => attempts_waits rest + 1
  | Attempt.refused _ :: rest => attempts_waits rest

/-- A work item with distinct bytes: midstate 1 … 32, data 0 … 127, starting
nonce 0x12345678. -/
def s4_work : work :=
  { midstate := (List.range 32).map (fun i => i + 1), data := List.range 128,
    blk_nonce := 0x12345678 }

/-- The passes of the range-unsupported scenario: the device refuses "ZPX" with
"ERR:UNKNOWN", then is busy once. -/
def s4_attempts : List Attempt :=
  [Attempt.refused [69, 82, 82, 58, 85, 78, 75, 78, 79, 87, 78],
   Attempt.busy [66, 85, 83, 89]]

/-- The passes of a scenario in which the device times out once and is busy
once before it accepts. -/
def retry_attempts : List Attempt :=
  [Attempt.timeout, Attempt.busy [66, 85, 83, 89]]

/-- A world in which the device goes through the given passes, then answers
"OK" to the start command and "OK" to the frame; `restart_wait` never reports
a restart. -/
def submit_world (pre : List Attempt) : World :=
  { quiet (attempts_rx pre ++ ([79, 75].map some ++ some 10 :: [some 79, some 75, some 10])) []
    with restarts := List.replicate (attempts_waits pre) true ++ [], clock := [⟨0, 0⟩] }

/-- The device name of the identify scenario: "BitFORCE SHA256 1.0". -/
def s1_name : List Nat :=
  [66, 105, 116, 70, 79, 82, 67, 69, 32, 83, 72, 65, 50, 53, 54, 32, 49, 46, 48]

/-- A world whose device answers "ZGX" with ">>>ID: BitFORCE SHA256 1.0 >>>\n"
and whose serial port opens as descriptor 3. -/
def s1_world : World :=
  { quiet ((str_ID ++ s1_name ++ [32, 62, 62, 62]).map some ++ some 10 :: []) [] with
    opens := [3] }

/-- A waiting poll that reads "BUSY\n" at the given time. -/
def busy_poll (now : timeval) : Waiting :=
  { line := some str_BUSY, now := now }

/-- A world for a job submitted at time 0: a poll at 0.49 s reads "BUSY\n",
the sleep after it is not cut short, and the next poll reads `line` at `t`. -/
def busy_then (line : List Nat) (t : timeval) : World :=
  { quiet (waiting_rx [busy_poll ⟨0, 490000⟩] ++ (line.map some ++ some 10 :: [])) [] with
    clock := [⟨0, 490000⟩, t], stales := [0] }

/-- The hex groups of the reply "NONCE-FOUND:12345678,9ABCDEF0". -/
def s3_groups : List (List Nat) :=
  [[49, 50, 51, 52, 53, 54, 55, 56], [57, 65, 66, 67, 68, 69, 70, 48]]

/-- The device answers "BUSY", then "NONCE-FOUND:12345678,9ABCDEF0" at 0.5 s. -/
def s3_world : World :=
  busy_then (str_NONCE_FOUND ++ 58 :: comma_joined s3_groups) ⟨0, 500000⟩

/-- The device answers "BUSY", then the garbled "XYZ" at 0.5 s. -/
def s4_world : World :=
  busy_then [88, 89, 90] ⟨0, 500000⟩

/-- The device answers "BUSY", then "NO-NONCE" 8 s after submission. -/
def s5_world : World :=
  busy_then [78, 79, 45, 78, 79, 78, 67, 69] ⟨8, 0⟩

/-! ## A simulated device that finishes every job after 600 ms

Time only passes in the driver's sleeps: the first poll of a job happens
`sleep_ms` after submission and every later poll 10 ms after the one before. -/

/-- Reply to `ZFX` at `t` ms after submission: "BUSY\n" before 600 ms,
"NO-NONCE\n" from then on. -/
def sim_reply (t : Nat) : List Nat :=
  if t < 600 then [66, 85, 83, 89, 10] else [78, 79, 45, 78, 79, 78, 67, 69, 10]

/-- The poll times of a job started with the given `sleep_ms`, up to the first
one at or after 600 ms. -/
def sim_times (sleep_ms : Nat) : List Nat :=
  (List.range ((600 - sleep_ms + 9) / 10 + 1)).map (fun i => sleep_ms + 10 * i)

/-- The world one job sees: "OK\n" to the start command and to the frame, then
the poll replies; the clock reads 0 at submission and `t` ms at the poll at
time `t`; no sleep is ever cut short by stale work. -/
def sim_world (sleep_ms : Nat) : World :=
  { rx := ([79, 75, 10, 79, 75, 10] ++ ((sim_times sleep_ms).map sim_reply).flatten).map some,
    tx := [],
    clock := ⟨0, 0⟩ :: (sim_times sleep_ms).map
      (fun t => (⟨(t / 1000 : Nat), ((t % 1000 * 1000 : Nat) : Int)⟩ : timeval)),
    restarts := [],
    stales := List.replicate ((sim_times sleep_ms).length + 1) 0,
    opens := [], trylocks := [], sink := [], hw_errors := 0, events := [],
    junk := [], gets_calls := 0 }

/-- A work item for the simulation. -/
def sim_work : work :=
  { midstate := List.replicate 32 0, data := List.replicate 128 0, blk_nonce := 0 }

/-- The session after one scan cycle against the simulated device. -/
def sim_job (s : cgpu_info) : cgpu_info :=
  (bitforce_scanhash false s sim_work (sim_world s.sleep_ms)).dev

/-- A prepared full-range session whose `sleep_ms` is 500. -/
def sim_start : cgpu_info :=
  { device_fd := 3, deven_enabled := true, threads := 1, nonce_range := false,
    sleep_ms := 500, kname := some Kname.KNAME_WORK, name := none,
    status := alive.LIFE_INIT2, polling := false, flash_led := false,
    hw_errors := 0, wait_ms := 0, nonces := 0, work_start_tv := ⟨0, 0⟩ }

/-- A prepared session in nonce-range mode whose `sleep_ms` is 500. -/
def sim_range_start : cgpu_info :=
  { sim_start with nonce_range := true, kname := some Kname.KNAME_RANGE }

/-- The session after `n` jobs. -/
def sim_run : Nat → cgpu_info
  | 0 => sim_start
  | n + 1 => sim_job (sim_run n)

/-! ## Facts about the line transport -/

theorem set_split (buf : List Nat) (pos c : Nat) (h : pos < buf.length) :
    buf.set pos c = buf.take pos ++ c :: buf.drop (pos + 1) :=
  List.set_eq_take_cons_drop c h

theorem take_succ_set (buf : List Nat) (pos c : Nat) (h : pos < buf.length) :
    (buf.set pos c).take (pos + 1) = buf.take pos ++ [c] := by
  rw [set_split buf pos c h, List.take_append_eq_append_take, List.take_take,
    List.length_take]
  have h1 : min pos buf.length = pos := by omega
  have h2 : min (pos + 1) pos = pos := by omega
  have h3 : pos + 1 - pos = 1 := by omega
  rw [h1, h2, h3]
  rfl

theorem drop_set_above (buf : List Nat) (pos c k : Nat) (h : pos < k) :
    (buf.set pos c).drop k = buf.drop k := by
  exact List.drop_set_of_lt c buf h

/-- Reading a complete line: the loop stores the line, then the newline, and
stops one position after the newline. -/
theorem BFgets_loop_line (line : List Nat) (hl : ∀ c ∈ line, c ≠ 10) :
    ∀ (buf : List Nat) (pos n : Nat) (rest : List (Option Nat)),
      line.length + 1 < n → pos + line.length + 1 < buf.length →
      BFgets_loop buf pos n (line.map some ++ some 10 :: rest) =
        (buf.take pos ++ line ++ 10 :: buf.drop (pos + line.length + 1),
          pos + line.length + 1, rest) := by
  induction line with
  | nil =>
    intro buf pos n rest hn hpos
    obtain ⟨m, rfl⟩ : ∃ m, n = m + 1 := ⟨n - 1, by omega⟩
    have hm : m ≠ 0 := by simp at hn; omega
    simp at hpos
    simp [BFgets_loop, hm, read1, List.set_set]
    exact set_split buf pos 10 (by omega)
  | cons c line ih =>
    intro buf pos n rest hn hpos
    obtain ⟨m, rfl⟩ : ∃ m, n = m + 1 := ⟨n - 1, by omega⟩
    have hm : m ≠ 0 := by simp at hn; omega
    have hc : c ≠ 10 := hl c (by simp)
    simp at hpos hn
    have hrec := ih (fun d hd => hl d (by simp [hd])) (buf.set pos c) (pos + 1) m
      rest (by omega) (by simp; omega)
    simp [BFgets_loop, hm, read1, List.set_set, hc]
    rw [hrec, take_succ_set buf pos c (by omega),
      drop_set_above buf pos c _ (by omega)]
    have e1 : pos + 1 + line.length + 1 = pos + (line.length + 1) + 1 := by omega
    rw [e1]
    simp

theorem BFgets_rx_line (line : List Nat) (hl : ∀ c ∈ line, c ≠ 10) (buf : List Nat)
    (n : Nat) (rest : List (Option Nat)) (hn : line.length + 1 < n)
    (hb : line.length + 1 < buf.length) :
    BFgets_rx buf n (line.map some ++ some 10 :: rest) =
      (line ++ 10 :: 0 :: buf.drop (line.length + 2), rest) := by
  have h := BFgets_loop_line line hl buf 0 n rest hn (by omega)
  simp only [BFgets_rx, h]
  simp only [List.take_zero, List.nil_append, Nat.zero_add]
  have e1 : (line ++ 10 :: buf.drop (line.length + 1)) =
      (line ++ [10]) ++ buf.drop (line.length + 1) := by simp
  have e2 : (line ++ [10]).length = line.length + 1 := by simp
  have hlen : ((line ++ [10]) ++ buf.drop (line.length + 1)).length = buf.length := by
    simp; omega
  rw [e1, set_split _ _ _ (by rw [hlen]; exact hb), List.take_left' e2]
  have d : ((line ++ [10]) ++ buf.drop (line.length + 1)).drop (line.length + 1 + 1) =
      buf.drop (line.length + 2) := by
    rw [← List.drop_drop, List.drop_left' e2, List.drop_drop]
  rw [d]
  simp

theorem cstr_append (l t : List Nat) (h : ∀ c ∈ l, c ≠ 0) : cstr (l ++ 0 :: t) = l := by
  induction l with
  | nil => simp [cstr]
  | cons c cs ih =>
    have hc : c ≠ 0 := h c (by simp)
    simp [cstr, hc]
    exact ih (fun d hd => h d (by simp [hd]))

/-- C3 (as the code has it): `BFgets` keeps the terminator.  For a buffer of
capacity `n ≥ 2` and an input whose first newline is at index `k < n - 1`, the
buffer afterwards starts with the `k` bytes before the newline, then the
newline itself, then a NUL; the input up to and including the newline is
consumed; and when those `k` bytes contain no NUL the NUL-terminated string in
the buffer is the `k` bytes followed by the newline (`k + 1` bytes). -/
theorem BFgets_keeps_newline (n : Nat) (buf line : List Nat) (rest : List (Option Nat))
    (w : World) (hn : 2 ≤ n) (hbuf : n ≤ buf.length) (hl : ∀ c ∈ line, c ≠ 10)
    (hk : line.length < n - 1) (hrx : w.rx = line.map some ++ some 10 :: rest) :
    (BFgets buf n w).1 = line ++ 10 :: 0 :: buf.drop (line.length + 2) ∧
    (BFgets buf n w).2.rx = rest ∧
    ((∀ c ∈ line, c ≠ 0) → cstr (BFgets buf n w).1 = line ++ [10]) := by
  have h := BFgets_rx_line line hl buf n rest (by omega) (by omega)
  simp only [BFgets, hrx, h]
  refine ⟨trivial, trivial, ?_⟩
  intro h0
  have e : line ++ 10 :: 0 :: buf.drop (line.length + 2) =
      (line ++ [10]) ++ 0 :: buf.drop (line.length + 2) := by simp
  rw [e]
  apply cstr_append
  intro c hc
  simp at hc
  rcases hc with hc | hc
  · exact h0 c hc
  · omega

theorem BFgets_keeps_newline_witness :
    (BFgets [1, 1, 1, 1] 4 (quiet [some 97, some 10, some 98] [])).1 = [97, 10, 0, 1] ∧
    (BFgets [1, 1, 1, 1] 4 (quiet [some 97, some 10, some 98] [])).2.rx = [some 98] ∧
    ((∀ c ∈ [97], c ≠ 0) →
      cstr (BFgets [1, 1, 1, 1] 4 (quiet [some 97, some 10, some 98] [])).1 = [97, 10]) :=
  BFgets_keeps_newline 4 [1, 1, 1, 1] [97] [some 98] (quiet [some 97, some 10, some 98] [])
    (by decide) (by decide) (by decide) (by decide) rfl

/-- C3 as stated fails: with capacity 4 and input "a\n" (first newline at index
`k = 1 < 3`) the string left in the buffer is "a\n", two bytes, not the one
byte "a" that precedes the newline; it contains the newline. -/
theorem BFgets_drops_newline_counterexample :
    cstr (BFgets [1, 1, 1, 1] 4 (quiet [some 97, some 10] [])).1 = [97, 10] ∧
    cstr (BFgets [1, 1, 1, 1] 4 (quiet [some 97, some 10] [])).1 ≠ [97] ∧
    10 ∈ cstr (BFgets [1, 1, 1, 1] 4 (quiet [some 97, some 10] [])).1 := by
  decide

/-! ## The timing adjustment -/

/-- C5 (as the code has it): for `10 ≤ sleep_ms ≤ 25000` and
`sleep_ms ≤ wait_ms < 2^32` the adjustment never takes `sleep_ms` to zero, and
it takes it below `CHECK_INTERVAL_MS = 10` exactly when `wait_ms = sleep_ms`
and `sleep_ms` lies strictly between 10 and 20 or strictly between 50 and 60
(one subtraction of 10 or of 50 then lands in `1 … 9`); in every other case
the new `sleep_ms` is at least 10. -/
theorem tune_lower_bound (s : cgpu_info) (h1 : BITFORCE_CHECK_INTERVAL_MS ≤ s.sleep_ms)
    (h2 : s.sleep_ms ≤ 25000) (h3 : s.sleep_ms ≤ s.wait_ms) (h4 : s.wait_ms < U32) :
    1 ≤ (bitforce_tune s).sleep_ms ∧
    ((bitforce_tune s).sleep_ms < BITFORCE_CHECK_INTERVAL_MS ↔
      s.wait_ms = s.sleep_ms ∧
        ((10 < s.sleep_ms ∧ s.sleep_ms < 20) ∨ (50 < s.sleep_ms ∧ s.sleep_ms < 60))) := by
  simp only [BITFORCE_CHECK_INTERVAL_MS, U32] at h1 h4
  unfold bitforce_tune
  simp only [BITFORCE_CHECK_INTERVAL_MS, WORK_CHECK_INTERVAL_MS, U32]
  have e1 : (s.sleep_ms + 50 * 2) % 2 ^ 32 = s.sleep_ms + 100 := by omega
  have e2 : (s.wait_ms + 2 ^ 32 - s.sleep_ms) % 2 ^ 32 = s.wait_ms - s.sleep_ms := by omega
  have e3 : (s.sleep_ms + (s.wait_ms - s.sleep_ms) / 2) % 2 ^ 32 =
      s.sleep_ms + (s.wait_ms - s.sleep_ms) / 2 := by omega
  rw [e1, e2, e3]
  split_ifs with c1 c2 c3 c4 <;> (try dsimp only) <;> omega

theorem tune_lower_bound_witness :
    1 ≤ (bitforce_tune { sim_start with sleep_ms := 500, wait_ms := 500 }).sleep_ms ∧
    ((bitforce_tune { sim_start with sleep_ms := 500, wait_ms := 500 }).sleep_ms <
        BITFORCE_CHECK_INTERVAL_MS ↔
      (500 : Nat) = 500 ∧ ((10 < 500 ∧ 500 < 20) ∨ (50 < 500 ∧ 500 < 60))) :=
  tune_lower_bound { sim_start with sleep_ms := 500, wait_ms := 500 }
    (by decide) (by decide) (by decide) (by decide)

/-- C5 as stated fails: `sleep_ms = wait_ms = 55` satisfies
`10 ≤ sleep_ms ≤ 25000` and `wait_ms ≥ sleep_ms`, and the adjustment leaves
`sleep_ms = 5 < 10`; so does a whole `bitforce_get_result` call that reads
"NO-NONCE\n" on its first poll, 55 ms after submission. -/
theorem tune_below_check_interval_counterexample :
    (bitforce_tune { sim_start with sleep_ms := 55, wait_ms := 55 }).sleep_ms = 5 ∧
    (bitforce_get_result { sim_start with sleep_ms := 55, wait_ms := 55 } sim_work
      { quiet ([78, 79, 45, 78, 79, 78, 67, 69, 10].map some) [] with
        clock := [⟨0, 55000⟩] }).dev.sleep_ms = 5 := by
  decide

/-! ## The simulated device -/

theorem sim_job_fixed : sim_job (sim_run 1) = sim_run 1 := by decide

theorem sim_run_succ (n : Nat) : sim_run (n + 1) = sim_run 1 := by
  induction n with
  | zero => rfl
  | succ k ih =>
    show sim_job (sim_run (k + 1)) = sim_run 1
    rw [ih]
    exact sim_job_fixed

theorem sim_run_sleep (n : Nat) : (sim_run n).sleep_ms = 500 := by
  cases n with
  | zero => rfl
  | succ k =>
    rw [sim_run_succ]
    decide

/-- C6 (as the code has it): against the simulated device that answers "BUSY"
before 600 ms and "NO-NONCE" from 600 ms on, a session that starts at
`sleep_ms = 500` keeps `sleep_ms = 500` after every job: each job ends with
`wait_ms = 600`, which is not more than `sleep_ms + 100` and not equal to
`sleep_ms`, so the adjustment changes nothing.  `sleep_ms` therefore stays in
`[500, 600]` and never enters `[550, 650]`. -/
theorem sim_sleep_stays_500 (n : Nat) :
    (sim_run n).sleep_ms = 500 ∧ (sim_run (n + 1)).wait_ms = 600 := by
  refine ⟨sim_run_sleep n, ?_⟩
  rw [sim_run_succ]
  decide

/-- C6 as stated fails: there is no job number `n ≤ 20` from which on
`sleep_ms` lies in `[550, 650]`. -/
theorem sim_convergence_counterexample :
    ¬ ∃ n, n ≤ 20 ∧ ∀ m, n ≤ m →
      550 ≤ (sim_run m).sleep_ms ∧ (sim_run m).sleep_ms ≤ 650 := by
  rintro ⟨n, _, h⟩
  have h1 := (h n (Nat.le_refl n)).1
  rw [sim_run_sleep] at h1
  omega

/-! ## Work frames -/

theorem memcpy_length (dst : List Nat) (off : Nat) (src : List Nat) (n : Nat) :
    (memcpy dst off src n).length = dst.length := by
  induction n with
  | zero => rfl
  | succ k ih => simp [memcpy, ih]

theorem memcpy_eq (dst : List Nat) (off : Nat) (src : List Nat) :
    ∀ n, n ≤ src.length → off + n ≤ dst.length →
      memcpy dst off src n = dst.take off ++ src.take n ++ dst.drop (off + n) := by
  intro n
  induction n with
  | zero => intro _ _; simp [memcpy]
  | succ k ih =>
    intro h1 h2
    have hA : (dst.take off ++ src.take k).length = off + k := by
      simp; omega
    have hlen : off + k < (dst.take off ++ src.take k ++ dst.drop (off + k)).length := by
      simp; omega
    have hv : src.take (k + 1) = src.take k ++ [src.getD k 0] := by
      rw [List.take_succ, List.getD_eq_getElem?_getD, List.getElem?_eq_getElem (by omega)]
      rfl
    rw [memcpy, ih (by omega) (by omega), set_split _ _ _ hlen, List.take_left' hA,
      ← List.drop_drop, List.drop_left' hA, List.drop_drop, hv]
    simp
    rfl

theorem sprintf_eq (dst : List Nat) (off : Nat) (str : List Nat)
    (h : off + str.length + 1 ≤ dst.length) :
    sprintf dst off str = dst.take off ++ str ++ 0 :: dst.drop (off + str.length + 1) := by
  unfold sprintf
  rw [memcpy_eq dst off (str ++ [0]) (str.length + 1) (by simp) (by omega)]
  have e : (str ++ [0]).take (str.length + 1) = str ++ [0] :=
    List.take_of_length_le (by simp)
  rw [e]
  simp
  rfl

theorem put_be32_eq (ob : List Nat) (off x : Nat) (h : off + 4 ≤ ob.length) :
    put_be32 ob off x = ob.take off ++ be32 x ++ ob.drop (off + 4) := by
  unfold put_be32
  rw [memcpy_eq ob off (be32 x) 4 (by simp [be32]) h]
  simp [be32]

theorem frame_common (ob mid data : List Nat) (ho : ob.length = 70) (hm : mid.length = 32)
    (hd : data.length = 128) :
    memcpy (memcpy (sprintf ob 0 str_GT8) 8 mid 32) (8 + 32) (data.drop 64) 12 =
      str_GT8 ++ mid ++ (data.drop 64).take 12 ++ ob.drop 52 := by
  have l8 : str_GT8.length = 8 := rfl
  have e1 : sprintf ob 0 str_GT8 = str_GT8 ++ 0 :: ob.drop 9 := by
    rw [sprintf_eq ob 0 str_GT8 (by rw [l8]; omega)]
    simp [l8]
  have e2 : memcpy (str_GT8 ++ 0 :: ob.drop 9) 8 mid 32 = str_GT8 ++ mid ++ ob.drop 40 := by
    rw [memcpy_eq _ 8 mid 32 (by omega) (by simp [l8]; omega)]
    have t : mid.take 32 = mid := List.take_of_length_le (by omega)
    rw [List.take_left' l8, t]
    have d : (str_GT8 ++ 0 :: ob.drop 9) = (str_GT8 ++ [0]) ++ ob.drop 9 := by simp
    rw [d, ← List.drop_drop 31 9, List.drop_left' (by simp [l8])]
    simp
  have l40 : (str_GT8 ++ mid).length = 40 := by simp [l8, hm]
  rw [e1, e2, memcpy_eq _ (8 + 32) (data.drop 64) 12 (by simp [hd]) (by simp [l8, hm]; omega),
    List.take_left' l40, ← List.drop_drop 12 40, List.drop_left' l40]
  simp

theorem frame_full (ob mid data : List Nat) (ho : ob.length = 70) (hm : mid.length = 32)
    (hd : data.length = 128) :
    (sprintf (memcpy (memcpy (sprintf ob 0 str_GT8) 8 mid 32) (8 + 32) (data.drop 64) 12)
      (8 + 32 + 12) str_GT8).take 60 =
      str_GT8 ++ mid ++ (data.drop 64).take 12 ++ str_GT8 := by
  have l8 : str_GT8.length = 8 := rfl
  have l52 : (str_GT8 ++ mid ++ (data.drop 64).take 12).length = 52 := by
    simp [l8, hm, hd]
  have e4 : sprintf (str_GT8 ++ mid ++ (data.drop 64).take 12 ++ ob.drop 52) (8 + 32 + 12) str_GT8 =
      str_GT8 ++ mid ++ (data.drop 64).take 12 ++ str_GT8 ++ 0 :: ob.drop 61 := by
    rw [sprintf_eq _ _ _ (by simp [l8, hm, hd]; omega)]
    rw [List.take_left' l52, l8, ← List.drop_drop 9 52, List.drop_left' l52]
    simp
  rw [frame_common ob mid data ho hm hd, e4]
  have l60 : (str_GT8 ++ mid ++ (data.drop 64).take 12 ++ str_GT8).length = 60 := by
    simp [l8, hm, hd]
  exact List.take_left' l60

theorem frame_range (ob mid data : List Nat) (x y : Nat) (ho : ob.length = 70)
    (hm : mid.length = 32) (hd : data.length = 128) :
    (sprintf (put_be32 (put_be32
        (memcpy (memcpy (sprintf ob 0 str_GT8) 8 mid 32) (8 + 32) (data.drop 64) 12)
        (8 + 32 + 12) x) (8 + 32 + 12 + 4) y) (8 + 32 + 12 + 8) str_GT8).take 68 =
      str_GT8 ++ mid ++ (data.drop 64).take 12 ++ be32 x ++ be32 y ++ str_GT8 := by
  have l8 : str_GT8.length = 8 := rfl
  have lx : ∀ z, (be32 z).length = 4 := fun _ => rfl
  have l52 : (str_GT8 ++ mid ++ (data.drop 64).take 12).length = 52 := by
    simp [l8, hm, hd]
  have l56 : (str_GT8 ++ mid ++ (data.drop 64).take 12 ++ be32 x).length = 56 := by
    simp [l8, hm, hd, lx]
  have l60 : (str_GT8 ++ mid ++ (data.drop 64).take 12 ++ be32 x ++ be32 y).length = 60 := by
    simp [l8, hm, hd, lx]
  have e4 : put_be32 (str_GT8 ++ mid ++ (data.drop 64).take 12 ++ ob.drop 52) (8 + 32 + 12) x =
      str_GT8 ++ mid ++ (data.drop 64).take 12 ++ be32 x ++ ob.drop 56 := by
    rw [put_be32_eq _ _ _ (by simp [l8, hm, hd]; omega)]
    rw [List.take_left' l52, ← List.drop_drop 4 52, List.drop_left' l52]
    simp
  have e5 : put_be32 (str_GT8 ++ mid ++ (data.drop 64).take 12 ++ be32 x ++ ob.drop 56)
      (8 + 32 + 12 + 4) y =
      str_GT8 ++ mid ++ (data.drop 64).take 12 ++ be32 x ++ be32 y ++ ob.drop 60 := by
    rw [put_be32_eq _ _ _ (by simp [l8, hm, hd, lx]; omega)]
    rw [List.take_left' l56, ← List.drop_drop 4 56, List.drop_left' l56]
    simp
  have e6 : sprintf (str_GT8 ++ mid ++ (data.drop 64).take 12 ++ be32 x ++ be32 y ++ ob.drop 60)
      (8 + 32 + 12 + 8) str_GT8 =
      str_GT8 ++ mid ++ (data.drop 64).take 12 ++ be32 x ++ be32 y ++ str_GT8 ++
        0 :: ob.drop 69 := by
    rw [sprintf_eq _ _ _ (by simp [l8, hm, hd, lx]; omega)]
    rw [List.take_left' l60, l8, ← List.drop_drop 9 60, List.drop_left' l60]
    simp
  rw [frame_common ob mid data ho hm hd, e4, e5, e6]
  have l68 : (str_GT8 ++ mid ++ (data.drop 64).take 12 ++ be32 x ++ be32 y ++ str_GT8).length
      = 68 := by
    simp [l8, hm, hd, lx]
  exact List.take_left' l68

theorem build_frame_bytes (ob : List Nat) (s : cgpu_info) (wk : work)
    (ho : ob.length = 70) (hm : wk.midstate.length = 32) (hd : wk.data.length = 128) :
    (bitforce_build_frame ob s wk).2.2 =
      if s.nonce_range = false then
        str_GT8 ++ wk.midstate ++ (wk.data.drop 64).take 12 ++ str_GT8
      else
        str_GT8 ++ wk.midstate ++ (wk.data.drop 64).take 12 ++ be32 wk.blk_nonce ++
          be32 ((wk.blk_nonce + 0x33333332) % U32) ++ str_GT8 := by
  unfold bitforce_build_frame
  cases hr : s.nonce_range
  · simp only [if_true]
    exact frame_full ob wk.midstate wk.data ho hm hd
  · simp only [Bool.true_eq_false, if_false]
    exact frame_range ob wk.midstate wk.data _ _ ho hm hd

theorem send_frame_tx (ob pdevbuf : List Nat) (s : cgpu_info) (wk : work) (w : World) :
    (bitforce_send_frame ob pdevbuf s wk w).world.tx =
      w.tx ++ [(bitforce_build_frame ob s wk).2.2] := by
  unfold bitforce_send_frame
  simp only []
  split_ifs
  · rfl
  · rfl
  · split <;> rfl
theorem stackbuf_length (w : World) (n : Nat) : (stackbuf w n).length = n := by
  simp [stackbuf]

theorem BFgets_line (line : List Nat) (hl : ∀ c ∈ line, c ≠ 10) (buf : List Nat) (n : Nat)
    (w : World) (rest : List (Option Nat)) (hrx : w.rx = line.map some ++ some 10 :: rest)
    (hn : line.length + 1 < n) (hb : line.length + 1 < buf.length) :
    BFgets buf n w = (line ++ 10 :: 0 :: buf.drop (line.length + 2),
      { w with rx := rest, gets_calls := w.gets_calls + 1 }) := by
  simp only [BFgets, hrx, BFgets_rx_line line hl buf n rest hn hb]

/-! ## Poll replies -/

theorem strncasecmp_one (c d : Nat) (t : List Nat) :
    strncasecmp (c :: t) [d] 1 = 0 ↔ tolower c = tolower d := by
  simp only [strncasecmp, List.headD_cons]
  by_cases h : tolower c = tolower d
  · simp [h]
  · simp only [h, ne_eq, not_false_eq_true, if_true, iff_false]
    omega

theorem BFgets_timeout (buf : List Nat) (w : World) (rest : List (Option Nat))
    (hrx : w.rx = none :: rest) :
    BFgets buf 256 w =
      ((buf.set 0 0).set 0 0, { w with rx := rest, gets_calls := w.gets_calls + 1 }) := by
  simp [BFgets, BFgets_rx, BFgets_loop, read1, hrx]

theorem poll_reply_line (pdevbuf : List Nat) (fuel : Nat) (s : cgpu_info) (w : World)
    (line : List Nat) (rest : List (Option Nat)) (now : timeval) (cs : List timeval)
    (hp : pdevbuf.length = 256) (hl : ∀ c ∈ line, c ≠ 10) (hfit : line.length + 2 ≤ 256)
    (h0 : line.headD 0 ≠ 0) (hB : tolower (line.headD 0) ≠ 98)
    (hrx : w.rx = line.map some ++ some 10 :: rest) (hclk : w.clock = now :: cs)
    (hlt : (timersub now s.work_start_tv).tv_sec < BITFORCE_LONG_TIMEOUT_S) :
    bitforce_get_result_poll pdevbuf (fuel + 1) s w =
      Poll.reply (line ++ 10 :: 0 :: (pdevbuf.set 0 0).drop (line.length + 2))
        (timersub now s.work_start_tv) s (after_poll w rest cs) := by
  have hg := BFgets_line line hl (pdevbuf.set 0 0) 256 (BFwrite w ZFX) rest hrx
    (by omega) (by rw [List.length_set, hp]; omega)
  rw [bitforce_get_result_poll]
  simp only [hg]
  obtain ⟨c, l, rfl⟩ : ∃ c l, line = c :: l := by
    cases line with
    | nil => simp at h0
    | cons c l => exact ⟨c, l, rfl⟩
  simp only [List.headD_cons] at h0 hB
  have hB2 : ¬ tolower c = tolower 66 := hB
  simp [BFwrite, hclk, not_le.mpr hlt, h0, hB2, str_B, strncasecmp_one, after_poll]

theorem poll_step_busy (pdevbuf : List Nat) (fuel : Nat) (s : cgpu_info) (w : World)
    (line : List Nat) (rest : List (Option Nat)) (now : timeval) (cs : List timeval)
    (vs : List Int)
    (hp : pdevbuf.length = 256) (hl : ∀ c ∈ line, c ≠ 10) (hfit : line.length + 2 ≤ 256)
    (h0 : line.headD 0 ≠ 0) (hB : tolower (line.headD 0) = 98)
    (hrx : w.rx = line.map some ++ some 10 :: rest) (hclk : w.clock = now :: cs)
    (hst : w.stales = 0 :: vs)
    (hlt : (timersub now s.work_start_tv).tv_sec < BITFORCE_LONG_TIMEOUT_S) :
    bitforce_get_result_poll pdevbuf (fuel + 1) s w =
      bitforce_get_result_poll
        (line ++ 10 :: 0 :: (pdevbuf.set 0 0).drop (line.length + 2)) fuel
        { s with wait_ms := (s.wait_ms + BITFORCE_CHECK_INTERVAL_MS) % U32 }
        { w with tx := w.tx ++ [ZFX], rx := rest, clock := cs, stales := vs,
                 gets_calls := w.gets_calls + 1 } := by
  have hg := BFgets_line line hl (pdevbuf.set 0 0) 256 (BFwrite w ZFX) rest hrx
    (by omega) (by rw [List.length_set, hp]; omega)
  rw [bitforce_get_result_poll]
  simp only [hg]
  obtain ⟨c, l, rfl⟩ : ∃ c l, line = c :: l := by
    cases line with
    | nil => simp at h0
    | cons c l => exact ⟨c, l, rfl⟩
  simp only [List.headD_cons] at h0 hB
  have hB2 : tolower c = tolower 66 := hB
  simp [BFwrite, hclk, hst, not_le.mpr hlt, h0, hB2, str_B, strncasecmp_one]

theorem poll_step_timeout (pdevbuf : List Nat) (fuel : Nat) (s : cgpu_info) (w : World)
    (rest : List (Option Nat)) (now : timeval) (cs : List timeval) (vs : List Int)
    (hp : pdevbuf.length = 256)
    (hrx : w.rx = none :: rest) (hclk : w.clock = now :: cs) (hst : w.stales = 0 :: vs)
    (hlt : (timersub now s.work_start_tv).tv_sec < BITFORCE_LONG_TIMEOUT_S) :
    bitforce_get_result_poll pdevbuf (fuel + 1) s w =
      bitforce_get_result_poll ((pdevbuf.set 0 0).set 0 0) fuel
        { s with wait_ms := (s.wait_ms + 2 * WORK_CHECK_INTERVAL_MS) % U32 }
        { w with tx := w.tx ++ [ZFX], rx := rest, clock := cs, stales := vs,
                 gets_calls := w.gets_calls + 1 } := by
  have hg := BFgets_timeout (pdevbuf.set 0 0) (BFwrite w ZFX) rest hrx
  obtain ⟨b, bs, rfl⟩ : ∃ b bs, pdevbuf = b :: bs := by
    cases pdevbuf with
    | nil => simp at hp
    | cons b bs => exact ⟨b, bs, rfl⟩
  rw [bitforce_get_result_poll]
  simp only [hg]
  simp [BFwrite, hclk, hst, not_le.mpr hlt]

theorem waited_refl (s : cgpu_info) : waited s s := rfl

theorem polled_refl (w : World) : polled w w := rfl

theorem poll_waiting :
    ∀ (ps : List Waiting) (pdevbuf : List Nat) (fuel : Nat) (s : cgpu_info) (w : World)
      (rx2 : List (Option Nat)) (clk2 : List timeval) (st2 : List Int),
      pdevbuf.length = 256 → (∀ p ∈ ps, waiting_ok s.work_start_tv p) →
      w.rx = waiting_rx ps ++ rx2 → w.clock = ps.map (fun p => p.now) ++ clk2 →
      w.stales = List.replicate ps.length 0 ++ st2 →
      ∃ pd2 s2 w2, pd2.length = 256 ∧ waited s s2 ∧ polled w w2 ∧
        w2.rx = rx2 ∧ w2.clock = clk2 ∧ w2.stales = st2 ∧
        bitforce_get_result_poll pdevbuf (fuel + ps.length) s w =
          bitforce_get_result_poll pd2 fuel s2 w2 := by
  intro ps
  induction ps with
  | nil =>
    intro pdevbuf fuel s w rx2 clk2 st2 hp _ hrx hclk hst
    exact ⟨pdevbuf, s, w, hp, waited_refl s, polled_refl w, by simpa [waiting_rx] using hrx,
      by simpa using hclk, by simpa using hst, rfl⟩
  | cons p ps ih =>
    intro pdevbuf fuel s w rx2 clk2 st2 hp hok hrx hclk hst
    obtain ⟨hlt, hline⟩ := hok p (by simp)
    have hclk1 : w.clock = p.now :: (ps.map (fun p => p.now) ++ clk2) := by simpa using hclk
    have hst1 : w.stales = 0 :: (List.replicate ps.length 0 ++ st2) := by
      simpa [List.replicate_succ] using hst
    have hfuel : fuel + (p :: ps).length = (fuel + ps.length) + 1 := by simp; omega
    rw [hfuel]
    cases hpl : p.line with
    | none =>
      have hrx1 : w.rx = none :: (waiting_rx ps ++ rx2) := by
        simpa [waiting_rx, hpl] using hrx
      rw [poll_step_timeout pdevbuf _ s w _ p.now _ _ hp hrx1 hclk1 hst1 hlt]
      obtain ⟨pd2, s2, w2, h1, h2, h3, h4, h5, h6, h7⟩ :=
        ih ((pdevbuf.set 0 0).set 0 0) fuel
          { s with wait_ms := (s.wait_ms + 2 * WORK_CHECK_INTERVAL_MS) % U32 }
          { w with tx := w.tx ++ [ZFX], rx := waiting_rx ps ++ rx2,
                   clock := ps.map (fun p => p.now) ++ clk2,
                   stales := List.replicate ps.length 0 ++ st2,
                   gets_calls := w.gets_calls + 1 }
          rx2 clk2 st2 (by simp [hp]) (fun q hq => hok q (by simp [hq])) rfl rfl rfl
      refine ⟨pd2, s2, w2, h1, ?_, ?_, h4, h5, h6, h7⟩
      · unfold waited at h2 ⊢
        rw [h2]
      · unfold polled at h3 ⊢
        rw [h3]
    | some l =>
      rw [hpl] at hline
      obtain ⟨h0, hB, hl, hfit⟩ := hline
      have hrx1 : w.rx = l.map some ++ some 10 :: (waiting_rx ps ++ rx2) := by
        simpa [waiting_rx, hpl] using hrx
      rw [poll_step_busy pdevbuf _ s w l _ p.now _ _ hp hl hfit h0 hB hrx1 hclk1 hst1 hlt]
      obtain ⟨pd2, s2, w2, h1, h2, h3, h4, h5, h6, h7⟩ :=
        ih (l ++ 10 :: 0 :: (pdevbuf.set 0 0).drop (l.length + 2)) fuel
          { s with wait_ms := (s.wait_ms + BITFORCE_CHECK_INTERVAL_MS) % U32 }
          { w with tx := w.tx ++ [ZFX], rx := waiting_rx ps ++ rx2,
                   clock := ps.map (fun p => p.now) ++ clk2,
                   stales := List.replicate ps.length 0 ++ st2,
                   gets_calls := w.gets_calls + 1 }
          rx2 clk2 st2 (by simp [hp]; omega) (fun q hq => hok q (by simp [hq])) rfl rfl rfl
      refine ⟨pd2, s2, w2, h1, ?_, ?_, h4, h5, h6, h7⟩
      · unfold waited at h2 ⊢
        rw [h2]
      · unfold polled at h3 ⊢
        rw [h3]

theorem waited_fields {s s2 : cgpu_info} (h : waited s s2) :
    s2.nonce_range = s.nonce_range ∧ s2.nonces = s.nonces ∧ s2.hw_errors = s.hw_errors ∧
    s2.work_start_tv = s.work_start_tv ∧ s2.device_fd = s.device_fd := by
  unfold waited at h
  refine ⟨?_, ?_, ?_, ?_, ?_⟩ <;> (rw [h])

theorem polled_fields {w w2 : World} (h : polled w w2) :
    w2.sink = w.sink ∧ w2.hw_errors = w.hw_errors ∧ w2.events = w.events := by
  unfold polled at h
  refine ⟨?_, ?_, ?_⟩ <;> (rw [h])

theorem polled_after_poll {w w2 : World} (h : polled w w2) (rest : List (Option Nat))
    (cs : List timeval) : polled w (after_poll w2 rest cs) := by
  unfold polled at h ⊢
  rw [h]
  rfl

/-- The poll loop of `bitforce_get_result` runs through any number of waiting
polls and leaves with the first reply that is non-empty and does not begin
with `B`; on the way only `wait_ms` and the polled parts of the world change. -/
theorem get_result_after_waiting (s : cgpu_info) (wk : work) (w : World)
    (ps : List Waiting) (line : List Nat) (rest : List (Option Nat)) (now : timeval)
    (cs : List timeval) (vs : List Int)
    (hfd : s.device_fd ≠ 0) (hps : ∀ p ∈ ps, waiting_ok s.work_start_tv p)
    (hl : ∀ c ∈ line, c ≠ 10) (hfit : line.length + 2 ≤ 256)
    (h0 : line.headD 0 ≠ 0) (hB : tolower (line.headD 0) ≠ 98)
    (hrx : w.rx = waiting_rx ps ++ (line.map some ++ some 10 :: rest))
    (hclk : w.clock = ps.map (fun p => p.now) ++ now :: cs)
    (hst : w.stales = List.replicate ps.length 0 ++ vs)
    (hlt : (timersub now s.work_start_tv).tv_sec < BITFORCE_LONG_TIMEOUT_S) :
    ∃ X s2 w2, waited s s2 ∧ polled w w2 ∧
      bitforce_get_result s wk w =
        bitforce_get_result_reply (line ++ 10 :: 0 :: X) (timersub now s.work_start_tv)
          s2 wk w2 := by
  have hfuel : w.clock.length + 1 = (cs.length + 1 + 1) + ps.length := by
    rw [hclk, List.length_append, List.length_map, List.length_cons]; omega
  obtain ⟨pd2, s2, w2, h1, h2, h3, h4, h5, _, h7⟩ :=
    poll_waiting ps (stackbuf w 256) (cs.length + 1 + 1) s w _ _ vs (stackbuf_length w 256)
      hps hrx hclk hst
  have hstart := (waited_fields h2).2.2.2.1
  refine ⟨(pd2.set 0 0).drop (line.length + 2), s2, after_poll w2 rest cs, h2,
    polled_after_poll h3 rest cs, ?_⟩
  unfold bitforce_get_result
  rw [if_neg hfd, hfuel, h7,
    poll_reply_line pd2 (cs.length + 1) s2 w2 line rest now cs h1 hl hfit h0 hB h4 h5
      (by rw [hstart]; exact hlt), hstart]

theorem busy_poll_ok :
    ∀ p ∈ [busy_poll ⟨0, 490000⟩], waiting_ok sim_start.work_start_tv p := by
  intro p hp
  rw [List.mem_singleton] at hp
  subst hp
  exact ⟨by decide, by decide, by decide, by decide, by decide⟩

theorem hex2bin_group (p g t : List Nat) (hg : g.length = 8)
    (hh : ∀ c ∈ g, (hexval c).isSome) :
    be32toh_mem (hex2bin p (g ++ t) 4) = hex_number g := by
  match g, hg with
  | [a, b, c, d, e, f, x, y], _ =>
    obtain ⟨va, ha⟩ := Option.isSome_iff_exists.mp (hh a (by simp))
    obtain ⟨vb, hb⟩ := Option.isSome_iff_exists.mp (hh b (by simp))
    obtain ⟨vc, hc⟩ := Option.isSome_iff_exists.mp (hh c (by simp))
    obtain ⟨vd, hd⟩ := Option.isSome_iff_exists.mp (hh d (by simp))
    obtain ⟨ve, he⟩ := Option.isSome_iff_exists.mp (hh e (by simp))
    obtain ⟨vf, hf⟩ := Option.isSome_iff_exists.mp (hh f (by simp))
    obtain ⟨vx, hx⟩ := Option.isSome_iff_exists.mp (hh x (by simp))
    obtain ⟨vy, hy⟩ := Option.isSome_iff_exists.mp (hh y (by simp))
    simp [hex2bin, be32toh_mem, hex_number, ha, hb, hc, hd, he, hf, hx, hy]
    omega

theorem get_result_nonces_groups (pdevbuf : List Nat) :
    ∀ (groups : List (List Nat)) (fuel off : Nat) (nonce : List Nat) (s : cgpu_info)
      (wk : work) (w : World) (tl : List Nat),
      groups ≠ [] → s.nonce_range = false → groups.length ≤ fuel →
      (∀ g ∈ groups, g.length = 8 ∧ ∀ c ∈ g, (hexval c).isSome) →
      pdevbuf.drop off = comma_joined groups ++ 10 :: tl →
      bitforce_get_result_nonces pdevbuf fuel off nonce s wk w =
        (s, wk, { w with sink := w.sink ++ groups.map hex_number }) := by
  intro groups
  induction groups with
  | nil => intro _ _ _ _ _ _ _ h; exact absurd rfl h
  | cons g gs ih =>
    intro fuel off nonce s wk w tl _ hs hfuel hg hbuf
    obtain ⟨k, rfl⟩ : ∃ k, fuel = k + 1 := ⟨fuel - 1, by simp at hfuel; omega⟩
    have hg8 := (hg g (by simp)).1
    have hgh := (hg g (by simp)).2
    have hN : be32toh_mem (hex2bin nonce (pdevbuf.drop off) 4) = hex_number g := by
      rw [hbuf]
      cases gs with
      | nil => exact hex2bin_group _ g _ hg8 hgh
      | cons g2 gs2 =>
        simp only [comma_joined, List.append_assoc]
        exact hex2bin_group _ g _ hg8 hgh
    rw [bitforce_get_result_nonces]
    cases gs with
    | nil =>
      simp only [comma_joined] at hbuf
      have hC : strncmp ((pdevbuf.drop off).drop 8) str_comma 1 ≠ 0 := by
        rw [hbuf, List.drop_left' hg8]
        simp [strncmp, str_comma]
      simp only [hN, hC, hs, ne_eq, not_false_eq_true, if_true, Bool.false_eq_true,
        false_and, if_false]
      simp [submit_nonce]
    | cons g2 gs2 =>
      simp only [comma_joined] at hbuf
      have hd : (pdevbuf.drop off).drop 8 = 44 :: (comma_joined (g2 :: gs2) ++ 10 :: tl) := by
        rw [hbuf, List.append_assoc, List.drop_left' hg8]
        rfl
      have hC : strncmp ((pdevbuf.drop off).drop 8) str_comma 1 = 0 := by
        rw [hd]
        simp [strncmp, str_comma]
      have hd9 : pdevbuf.drop (off + 9) = comma_joined (g2 :: gs2) ++ 10 :: tl := by
        have : pdevbuf.drop (off + 9) = ((pdevbuf.drop off).drop 8).drop 1 := by
          simp [List.drop_drop]
        rw [this, hd]
        rfl
      have hrec := ih k (off + 9) (store_u32 (hex_number g)) s wk (submit_nonce w (hex_number g))
        tl (by simp) hs (by simp at hfuel; simpa using hfuel)
        (fun g' hg' => hg g' (by simp [hg'])) hd9
      simp only [hN, hC, hs, ne_eq, not_true_eq_false, if_false, Bool.false_eq_true,
        false_and]
      rw [hrec]
      simp [submit_nonce]

theorem tune_nonce_range (s : cgpu_info) : (bitforce_tune s).nonce_range = s.nonce_range := by
  unfold bitforce_tune
  split_ifs <;> rfl

theorem tune_nonces (s : cgpu_info) : (bitforce_tune s).nonces = s.nonces := by
  unfold bitforce_tune
  split_ifs <;> rfl

theorem hexval_ne_newline (c : Nat) (h : (hexval c).isSome) : c ≠ 10 := by
  intro hc
  subst hc
  simp [hexval] at h

theorem comma_joined_spec :
    ∀ groups : List (List Nat), groups ≠ [] →
      (∀ g ∈ groups, g.length = 8 ∧ ∀ c ∈ g, (hexval c).isSome) →
      (comma_joined groups).length + 1 = 9 * groups.length ∧
      ∀ c ∈ comma_joined groups, c ≠ 10 := by
  intro groups
  induction groups with
  | nil => intro h; exact absurd rfl h
  | cons g gs ih =>
    intro _ hg
    have hg8 := (hg g (by simp)).1
    have hgh := (hg g (by simp)).2
    cases gs with
    | nil =>
      simp only [comma_joined, List.length_singleton]
      exact ⟨by omega, fun c hc => hexval_ne_newline c (hgh c hc)⟩
    | cons g2 gs2 =>
      have hrec := ih (by simp) (fun g' hg' => hg g' (by simp [hg']))
      simp only [comma_joined, List.length_append, List.length_cons] at *
      refine ⟨by omega, ?_⟩
      intro c hc
      simp only [List.mem_append, List.mem_cons] at hc
      rcases hc with hc | hc | hc
      · exact hexval_ne_newline c (hgh c hc)
      · omega
      · exact hrec.2 c hc

/-- C2: in full-range mode (`nonce_range` false, `nonces` = 0xFFFFFFFF as
`bitforce_send_work` leaves it), after any number of waiting polls, a poll
reply "NONCE-FOUND:" followed by `k ≥ 1` comma-separated groups of eight hex
digits (the whole line fitting the 256-byte buffer), read with the elapsed
whole seconds at most `TIMEOUT_S`, makes `bitforce_get_result` hand exactly the
`k` numbers written by the groups to the nonce sink, in order, and return
0xFFFFFFFF. -/
theorem nonce_found_submits (s : cgpu_info) (wk : work) (w : World)
    (groups : List (List Nat))
    (ps : List Waiting) (rest : List (Option Nat)) (now : timeval) (cs : List timeval)
    (vs : List Int)
    (hfd : s.device_fd ≠ 0) (hfull : s.nonce_range = false)
    (hn : s.nonces = 0xFFFFFFFF) (hps : ∀ p ∈ ps, waiting_ok s.work_start_tv p)
    (hk : groups ≠ [])
    (hg : ∀ g ∈ groups, g.length = 8 ∧ ∀ c ∈ g, (hexval c).isSome)
    (hfit : 12 + 9 * groups.length + 1 ≤ 256)
    (hrx : w.rx = waiting_rx ps ++
      ((str_NONCE_FOUND ++ 58 :: comma_joined groups).map some ++ some 10 :: rest))
    (hclk : w.clock = ps.map (fun p => p.now) ++ now :: cs)
    (hst : w.stales = List.replicate ps.length 0 ++ vs)
    (ht : (timersub now s.work_start_tv).tv_sec ≤ BITFORCE_TIMEOUT_S) :
    (bitforce_get_result s wk w).ret = some 0xFFFFFFFF ∧
    (bitforce_get_result s wk w).world.sink = w.sink ++ groups.map hex_number := by
  obtain ⟨hlen, hnl⟩ := comma_joined_spec groups hk hg
  have hline : ∀ c ∈ str_NONCE_FOUND ++ 58 :: comma_joined groups, c ≠ 10 := by
    intro c hc
    simp only [List.mem_append, List.mem_cons] at hc
    rcases hc with hc | hc | hc
    · revert c; decide
    · omega
    · exact hnl c hc
  have hl12 : (str_NONCE_FOUND ++ 58 :: comma_joined groups).length =
      12 + (comma_joined groups).length := by
    simp [str_NONCE_FOUND]; omega
  have ht25 : (timersub now s.work_start_tv).tv_sec < BITFORCE_LONG_TIMEOUT_S := by
    simp only [BITFORCE_TIMEOUT_S, BITFORCE_LONG_TIMEOUT_S] at *
    omega
  obtain ⟨X, s2, w1, hs2, hw2, heq⟩ := get_result_after_waiting s wk w ps _ rest now cs vs
    hfd hps hline (by omega) (by simp [str_NONCE_FOUND]) (by simp [str_NONCE_FOUND, tolower])
    hrx hclk hst ht25
  rw [heq]
  obtain ⟨hr2, hn2, _, _, _⟩ := waited_fields hs2
  have hw1 : w1.sink = w.sink := (polled_fields hw2).1
  generalize hP : str_NONCE_FOUND ++ 58 :: comma_joined groups ++ 10 :: 0 :: X = P
  have hPN : strncasecmp P str_N 1 = 0 := by
    rw [← hP]; simp [str_NONCE_FOUND, str_N, strncasecmp]
  have hPd : strncasecmp (P.drop 2) str_dash 1 ≠ 0 := by
    rw [← hP]; simp [str_NONCE_FOUND, str_dash, strncasecmp, tolower]
  have hPI : strncasecmp P str_I 1 ≠ 0 := by
    rw [← hP]; simp [str_NONCE_FOUND, str_I, strncasecmp, tolower]
  have hPF : strncasecmp P str_NONCE_FOUND 11 = 0 := by
    rw [← hP]; simp [str_NONCE_FOUND, strncasecmp, tolower]
  have hPdrop : P.drop 12 = comma_joined groups ++ 10 :: 0 :: X := by
    rw [← hP]; simp [str_NONCE_FOUND]
  have hloop := get_result_nonces_groups P groups 29 12 ((stackbuf w1 260).drop 256)
    (bitforce_tune s2) wk w1 _ hk (by rw [tune_nonce_range, hr2]; exact hfull) (by omega)
    hg hPdrop
  unfold bitforce_get_result_reply
  rw [if_neg (not_lt.mpr ht), if_pos hPN]
  unfold bitforce_get_result_parse
  rw [if_neg hPd, if_neg hPI, if_neg (not_not.mpr hPF)]
  simp only [hloop, tune_nonces, hn2, hn, hw1]
  exact ⟨rfl, trivial⟩

theorem nonce_found_submits_witness :
    ((bitforce_get_result { sim_start with nonces := 0xFFFFFFFF } sim_work s3_world).ret
        = some 0xFFFFFFFF ∧
      (bitforce_get_result { sim_start with nonces := 0xFFFFFFFF } sim_work s3_world).world.sink
        = s3_world.sink ++ s3_groups.map hex_number) ∧
    s3_world.sink ++ s3_groups.map hex_number = [0x12345678, 0x9ABCDEF0] :=
  ⟨nonce_found_submits { sim_start with nonces := 0xFFFFFFFF } sim_work s3_world s3_groups
    [busy_poll ⟨0, 490000⟩] [] ⟨0, 500000⟩ [] [] (by decide) rfl rfl busy_poll_ok
    (by decide) (by decide) (by decide) rfl rfl rfl (by decide), by decide⟩

theorem clear_buffer_loop_frame :
    ∀ (fuel : Nat) (pdevbuf : List Nat) (count : Nat) (w : World),
      (bitforce_clear_buffer_loop pdevbuf count fuel w).tx = w.tx ∧
      (bitforce_clear_buffer_loop pdevbuf count fuel w).sink = w.sink ∧
      (bitforce_clear_buffer_loop pdevbuf count fuel w).hw_errors = w.hw_errors ∧
      (bitforce_clear_buffer_loop pdevbuf count fuel w).events = w.events := by
  intro fuel
  induction fuel with
  | zero => intro _ _ _; exact ⟨rfl, rfl, rfl, rfl⟩
  | succ k ih =>
    intro pdevbuf count w
    rw [bitforce_clear_buffer_loop]
    split_ifs
    · exact ih _ _ _
    · exact ⟨rfl, rfl, rfl, rfl⟩

theorem clear_buffer_frame (s : cgpu_info) (w : World) :
    (bitforce_clear_buffer s w).tx = w.tx ∧
    (bitforce_clear_buffer s w).sink = w.sink ∧
    (bitforce_clear_buffer s w).hw_errors = w.hw_errors ∧
    (bitforce_clear_buffer s w).events = w.events := by
  unfold bitforce_clear_buffer
  split_ifs
  · exact ⟨rfl, rfl, rfl, rfl⟩
  · exact clear_buffer_loop_frame _ _ _ _

theorem tolower_eq_dash (e : Nat) : tolower e = 45 ↔ e = 45 := by
  unfold tolower
  split_ifs <;> omega

theorem strncasecmp_head_ne (c d : Nat) (t u : List Nat) (n : Nat)
    (h : tolower c ≠ tolower d) : strncasecmp (c :: t) (d :: u) (n + 1) ≠ 0 := by
  simp only [strncasecmp, List.headD_cons]
  rw [if_pos h]
  omega

/-- C4 (as the code has it): after any number of waiting polls, a non-empty
poll reply that fits the buffer, does not begin (case-insensitively) with `N`,
`B` or `I`, and whose third byte is not `-`, read while the elapsed whole
seconds are at most `TIMEOUT_S`, is treated as garbled: both hardware-error
counters go up by exactly one, no nonce is submitted and the call returns 0. -/
theorem garbled_reply (s : cgpu_info) (wk : work) (w : World) (line : List Nat)
    (ps : List Waiting) (rest : List (Option Nat)) (now : timeval) (cs : List timeval)
    (vs : List Int)
    (hfd : s.device_fd ≠ 0) (hps : ∀ p ∈ ps, waiting_ok s.work_start_tv p)
    (hl : ∀ c ∈ line, c ≠ 10) (hfit : line.length + 2 ≤ 256)
    (h0 : line.headD 0 ≠ 0) (hN : tolower (line.headD 0) ≠ 110)
    (hB : tolower (line.headD 0) ≠ 98) (hI : tolower (line.headD 0) ≠ 105)
    (hdash : line.getD 2 0 ≠ 45)
    (hrx : w.rx = waiting_rx ps ++ (line.map some ++ some 10 :: rest))
    (hclk : w.clock = ps.map (fun p => p.now) ++ now :: cs)
    (hst : w.stales = List.replicate ps.length 0 ++ vs)
    (ht : (timersub now s.work_start_tv).tv_sec ≤ BITFORCE_TIMEOUT_S) :
    (bitforce_get_result s wk w).ret = some 0 ∧
    (bitforce_get_result s wk w).dev.hw_errors = s.hw_errors + 1 ∧
    (bitforce_get_result s wk w).world.hw_errors = w.hw_errors + 1 ∧
    (bitforce_get_result s wk w).world.sink = w.sink := by
  have ht25 : (timersub now s.work_start_tv).tv_sec < BITFORCE_LONG_TIMEOUT_S := by
    simp only [BITFORCE_TIMEOUT_S, BITFORCE_LONG_TIMEOUT_S] at *
    omega
  obtain ⟨X, s2, w1, hs2, hw2, heq⟩ := get_result_after_waiting s wk w ps line rest now cs vs
    hfd hps hl hfit h0 hB hrx hclk hst ht25
  rw [heq]
  obtain ⟨_, _, he2, _, _⟩ := waited_fields hs2
  obtain ⟨hk1, hk2, _⟩ := polled_fields hw2
  obtain ⟨c, l, rfl⟩ : ∃ c l, line = c :: l := by
    cases line with
    | nil => simp at h0
    | cons c l => exact ⟨c, l, rfl⟩
  simp only [List.headD_cons] at h0 hN hB hI
  have hPN : strncasecmp (c :: l ++ 10 :: 0 :: X) str_N 1 ≠ 0 := by
    apply strncasecmp_head_ne; exact hN
  have hPI : strncasecmp (c :: l ++ 10 :: 0 :: X) str_I 1 ≠ 0 := by
    apply strncasecmp_head_ne; exact hI
  have hPF : strncasecmp (c :: l ++ 10 :: 0 :: X) str_NONCE_FOUND 11 ≠ 0 := by
    apply strncasecmp_head_ne; exact hN
  have hPd : strncasecmp ((c :: l ++ 10 :: 0 :: X).drop 2) str_dash 1 ≠ 0 := by
    match l, hdash with
    | [], _ => simp [strncasecmp, str_dash, tolower]
    | [d], _ => simp [strncasecmp, str_dash, tolower]
    | d :: e :: l2, hd =>
      simp only [List.cons_append, List.drop_succ_cons, List.drop_zero]
      apply strncasecmp_head_ne
      intro h
      have : tolower e = 45 := h
      rw [tolower_eq_dash] at this
      simp at hd
      exact hd this
  unfold bitforce_get_result_reply
  rw [if_neg (not_lt.mpr ht), if_neg hPN]
  unfold bitforce_get_result_parse
  rw [if_neg hPd, if_neg hPI, if_pos hPF]
  have hf := clear_buffer_frame (count_hw_error s2 w1).1 (count_hw_error s2 w1).2
  refine ⟨rfl, ?_, ?_, ?_⟩
  · show s2.hw_errors + 1 = s.hw_errors + 1
    rw [he2]
  · show (bitforce_clear_buffer _ _).hw_errors = _
    rw [hf.2.2.1]
    show w1.hw_errors + 1 = w.hw_errors + 1
    rw [hk2]
  · show (bitforce_clear_buffer _ _).sink = _
    rw [hf.2.1]
    exact hk1

theorem garbled_reply_witness :
    (bitforce_get_result sim_start sim_work s4_world).ret = some 0 ∧
    (bitforce_get_result sim_start sim_work s4_world).dev.hw_errors
      = sim_start.hw_errors + 1 ∧
    (bitforce_get_result sim_start sim_work s4_world).world.hw_errors
      = s4_world.hw_errors + 1 ∧
    (bitforce_get_result sim_start sim_work s4_world).world.sink = s4_world.sink :=
  garbled_reply sim_start sim_work s4_world [88, 89, 90]
    [busy_poll ⟨0, 490000⟩] [] ⟨0, 500000⟩ [] [] (by decide) busy_poll_ok
    (by decide) (by decide) (by decide) (by decide) (by decide) (by decide) (by decide)
    rfl rfl rfl (by decide)

/-- C4 as stated fails: the reply "XY-Z" is non-empty and does not begin with
`N`, `B` or `I`, and it is read 0.5 s after submission, yet
`bitforce_get_result` takes its third byte `-` for that of "NO-NONCE": it
returns `nonces_claimed` (0xFFFFFFFF here), not 0, and counts no hardware
error. -/
theorem garbled_reply_counterexample :
    (bitforce_get_result { sim_start with nonces := 0xFFFFFFFF } sim_work
      { quiet [some 88, some 89, some 45, some 90, some 10] [] with
        clock := [⟨0, 500000⟩] }).ret = some 0xFFFFFFFF ∧
    (bitforce_get_result { sim_start with nonces := 0xFFFFFFFF } sim_work
      { quiet [some 88, some 89, some 45, some 90, some 10] [] with
        clock := [⟨0, 500000⟩] }).dev.hw_errors = sim_start.hw_errors := by
  decide

theorem strncasecmp_zero_start :
    ∀ (needle line t : List Nat), (∀ c ∈ needle, tolower c ≠ 0 ∧ tolower c ≠ 10) →
      strncasecmp (line ++ 10 :: t) needle needle.length = 0 →
      (line.take needle.length).map tolower = needle.map tolower := by
  intro needle
  induction needle with
  | nil => intro _ _ _ _; simp
  | cons d ds ih =>
    intro line t hn h
    have hd := hn d (by simp)
    cases line with
    | nil =>
      exfalso
      simp only [List.nil_append, List.length_cons, strncasecmp, List.headD_cons] at h
      have h10 : tolower 10 = 10 := by decide
      rw [h10, if_pos (fun e => hd.2 e.symm)] at h
      omega
    | cons x xs =>
      simp only [List.cons_append, List.length_cons, strncasecmp, List.headD_cons,
        List.tail_cons] at h
      by_cases hx : tolower x = tolower d
      · rw [if_neg (not_not.mpr hx), if_neg (by rw [hx]; exact hd.1)] at h
        have := ih xs t (fun c hc => hn c (by simp [hc])) h
        simp [hx, this]
      · rw [if_pos hx] at h
        omega

/-- C9 (as the code has it): the overtime test compares whole seconds.  After
any number of waiting polls, a poll that ends the loop (non-empty reply, not
beginning with `B`, fitting the buffer) with `elapsed.tv_sec > TIMEOUT_S = 7`,
that is an elapsed time of at least 8 s, and below `LONG_TIMEOUT_S = 25`, and
whose reply does not begin (case-insensitively) with "NONCE-FOUND", makes
`bitforce_get_result` return 0, raise both hardware-error counters by exactly
one, report one over-heat event and submit nothing. -/
theorem overtime_reply (s : cgpu_info) (wk : work) (w : World) (line : List Nat)
    (ps : List Waiting) (rest : List (Option Nat)) (now : timeval) (cs : List timeval)
    (vs : List Int)
    (hfd : s.device_fd ≠ 0) (hps : ∀ p ∈ ps, waiting_ok s.work_start_tv p)
    (hl : ∀ c ∈ line, c ≠ 10) (hfit : line.length + 2 ≤ 256)
    (h0 : line.headD 0 ≠ 0) (hB : tolower (line.headD 0) ≠ 98)
    (hNF : (line.take 11).map tolower ≠ str_NONCE_FOUND.map tolower)
    (hrx : w.rx = waiting_rx ps ++ (line.map some ++ some 10 :: rest))
    (hclk : w.clock = ps.map (fun p => p.now) ++ now :: cs)
    (hst : w.stales = List.replicate ps.length 0 ++ vs)
    (hgt : BITFORCE_TIMEOUT_S < (timersub now s.work_start_tv).tv_sec)
    (hlt : (timersub now s.work_start_tv).tv_sec < BITFORCE_LONG_TIMEOUT_S) :
    (bitforce_get_result s wk w).ret = some 0 ∧
    (bitforce_get_result s wk w).dev.hw_errors = s.hw_errors + 1 ∧
    (bitforce_get_result s wk w).world.hw_errors = w.hw_errors + 1 ∧
    (bitforce_get_result s wk w).world.events = w.events ++ [Reason.REASON_DEV_OVER_HEAT] ∧
    (bitforce_get_result s wk w).world.sink = w.sink := by
  obtain ⟨X, s2, w1, hs2, hw2, heq⟩ := get_result_after_waiting s wk w ps line rest now cs vs
    hfd hps hl hfit h0 hB hrx hclk hst hlt
  rw [heq]
  obtain ⟨_, _, he2, _, _⟩ := waited_fields hs2
  obtain ⟨hk1, hk2, hk3⟩ := polled_fields hw2
  have hPF : strncasecmp (line ++ 10 :: 0 :: X) str_NONCE_FOUND 11 ≠ 0 := by
    intro h
    exact hNF (strncasecmp_zero_start str_NONCE_FOUND line _ (by decide) h)
  unfold bitforce_get_result_reply
  rw [if_pos hgt]
  simp only [hPF, ne_eq, not_false_eq_true, if_true]
  simp [count_hw_error, dev_error, he2, hk1, hk2, hk3]

theorem overtime_reply_witness :
    (bitforce_get_result sim_start sim_work s5_world).ret = some 0 ∧
    (bitforce_get_result sim_start sim_work s5_world).dev.hw_errors
      = sim_start.hw_errors + 1 ∧
    (bitforce_get_result sim_start sim_work s5_world).world.hw_errors
      = s5_world.hw_errors + 1 ∧
    (bitforce_get_result sim_start sim_work s5_world).world.events
      = s5_world.events ++ [Reason.REASON_DEV_OVER_HEAT] ∧
    (bitforce_get_result sim_start sim_work s5_world).world.sink = s5_world.sink :=
  overtime_reply sim_start sim_work s5_world [78, 79, 45, 78, 79, 78, 67, 69]
    [busy_poll ⟨0, 490000⟩] [] ⟨8, 0⟩ [] [] (by decide) busy_poll_ok
    (by decide) (by decide) (by decide) (by decide) (by decide) rfl rfl rfl
    (by decide) (by decide)

/-- C9 as stated fails: "NO-NONCE" read 7.5 s after submission (more than
`TIMEOUT_S = 7` s, less than 25 s, not "NONCE-FOUND") is not treated as
overtime, because `elapsed.tv_sec = 7` is not greater than 7:
`bitforce_get_result` returns `nonces_claimed` (0xFFFFFFFF here) and leaves the
hardware-error counters unchanged. -/
theorem overtime_reply_counterexample :
    timersub ⟨7, 500000⟩ sim_start.work_start_tv = ⟨7, 500000⟩ ∧
    (bitforce_get_result { sim_start with nonces := 0xFFFFFFFF } sim_work
      { quiet ([78, 79, 45, 78, 79, 78, 67, 69, 10].map some) [] with
        clock := [⟨7, 500000⟩] }).ret = some 0xFFFFFFFF ∧
    (bitforce_get_result { sim_start with nonces := 0xFFFFFFFF } sim_work
      { quiet ([78, 79, 45, 78, 79, 78, 67, 69, 10].map some) [] with
        clock := [⟨7, 500000⟩] }).dev.hw_errors = sim_start.hw_errors ∧
    (bitforce_get_result { sim_start with nonces := 0xFFFFFFFF } sim_work
      { quiet ([78, 79, 45, 78, 79, 78, 67, 69, 10].map some) [] with
        clock := [⟨7, 500000⟩] }).world.hw_errors = 0 := by
  decide

/-! ## Discovery -/

theorem starts_append (needle post : List Nat) : starts needle (needle ++ post) = true := by
  induction needle with
  | nil => rfl
  | cons c cs ih => simp [starts, ih]

theorem strstr_go_found (needle : List Nat) :
    ∀ (pre post : List Nat) (off : Nat), (∀ c ∈ pre, c ≠ 0) →
      strstr.go needle (pre ++ needle ++ post) off ≠ none := by
  intro pre
  induction pre with
  | nil =>
    intro post off _
    cases h : ([] ++ needle ++ post) with
    | nil => 
      simp at h
      simp [strstr.go, h.1]
    | cons c cs =>
      have hs : starts needle (c :: cs) = true := by
        rw [← h]; simpa using starts_append needle post
      simp [strstr.go, hs]
  | cons x xs ih =>
    intro post off hx
    have hx0 : x ≠ 0 := hx x (by simp)
    simp only [List.cons_append, strstr.go]
    split_ifs
    · simp
    · exact ih post (off + 1) (fun c hc => hx c (by simp [hc]))

theorem strstr_go_name :
    ∀ (name : List Nat) (off : Nat) (tl : List Nat), ¬ str_GT3 <:+: name →
      (∀ c ∈ name, c ≠ 0) →
      strstr.go str_GT3 (name ++ 32 :: 62 :: 62 :: 62 :: tl) off =
        some (off + name.length + 1) := by
  intro name
  induction name with
  | nil =>
    intro off tl _ _
    simp [strstr.go, starts, str_GT3]
  | cons c cs ih =>
    intro off tl hgt h0
    have hc0 : c ≠ 0 := h0 c (by simp)
    have hns : starts str_GT3 (c :: (cs ++ 32 :: 62 :: 62 :: 62 :: tl)) = false := by
      match cs, hgt with
      | [], _ => simp [starts, str_GT3]
      | [d], _ => simp [starts, str_GT3]
      | d :: e :: l, hgt =>
        by_contra hne
        simp [starts, str_GT3] at hne
        obtain ⟨h1, h2, h3⟩ := hne
        subst h1 h2 h3
        exact hgt (List.IsPrefix.isInfix ⟨l, rfl⟩)
    have hrec := ih (off + 1) tl (fun h => hgt (List.infix_cons h))
      (fun d hd => h0 d (by simp [hd]))
    show strstr.go str_GT3 (c :: (cs ++ 32 :: 62 :: 62 :: 62 :: tl)) off = _
    rw [strstr.go, hns, if_neg (by simp), if_neg hc0, hrec]
    simp only [List.length_cons]
    congr 1
    omega

theorem set_at_length (A B : List Nat) (x y : Nat) :
    (A ++ x :: B).set A.length y = A ++ y :: B := by
  induction A with
  | nil => rfl
  | cons a as ih => simp [ih]

theorem extract_name_line (name tl : List Nat) (hgt : ¬ str_GT3 <:+: name)
    (h0 : ∀ c ∈ name, c ≠ 0) :
    extract_name (str_ID ++ name ++ 32 :: 62 :: 62 :: 62 :: tl) = some (name ++ [32]) := by
  have hm : memcmp (str_ID ++ name ++ 32 :: 62 :: 62 :: 62 :: tl) str_ID 7 = 0 := by
    simp [memcmp, str_ID]
  have hd : (str_ID ++ name ++ 32 :: 62 :: 62 :: 62 :: tl).drop 3 =
      73 :: 68 :: 58 :: 32 :: (name ++ 32 :: 62 :: 62 :: 62 :: tl) := by
    simp [str_ID]
  have hs : strstr (73 :: 68 :: 58 :: 32 :: (name ++ 32 :: 62 :: 62 :: 62 :: tl)) str_GT3 =
      some (4 + name.length + 1) := by
    unfold strstr
    rw [strstr.go, if_neg (by simp [starts, str_GT3]), if_neg (by decide),
      strstr.go, if_neg (by simp [starts, str_GT3]), if_neg (by decide),
      strstr.go, if_neg (by simp [starts, str_GT3]), if_neg (by decide),
      strstr.go, if_neg (by simp [starts, str_GT3]), if_neg (by decide)]
    exact strstr_go_name name 4 tl hgt h0
  have hA : (str_ID ++ name ++ [32]).length = 3 + (4 + name.length + 1) := by
    simp [str_ID]; omega
  have hset : (str_ID ++ name ++ 32 :: 62 :: 62 :: 62 :: tl).set (3 + (4 + name.length + 1)) 0
      = str_ID ++ (name ++ [32] ++ 0 :: 62 :: 62 :: tl) := by
    have e : str_ID ++ name ++ 32 :: 62 :: 62 :: 62 :: tl =
        (str_ID ++ name ++ [32]) ++ 62 :: (62 :: 62 :: tl) := by simp
    rw [e, ← hA, set_at_length]
    simp
  unfold extract_name
  rw [if_pos hm, hd, hs]
  simp only [hset]
  rw [List.drop_left' (by rfl : str_ID.length = 7)]
  congr 1
  apply cstr_append
  intro c hc
  simp at hc
  rcases hc with hc | hc
  · exact h0 c hc
  · omega

/-- C7 (as the code has it): for an identity reply ">>>ID: " ++ name ++
" >>>\n" that fits the 256-byte buffer, where `name` contains "SHA256" and
contains neither ">>>" nor a NUL or newline byte, `bitforce_detect_one` (on a
path that opens) hands a device to `add_cgpu` whose name is the text between
">>>ID: " and the next ">>>", which is `name` followed by the space that
precedes ">>>". -/
theorem detect_one_name (opt_bfl_noncerange : Bool) (w : World) (name : List Nat)
    (fd : Int) (os : List Int) (rest : List (Option Nat))
    (hopen : w.opens = fd :: os) (hfd : fd ≠ -1)
    (hsha : str_SHA256 <:+: name) (hgt : ¬ str_GT3 <:+: name)
    (h0 : ∀ c ∈ name, c ≠ 0 ∧ c ≠ 10) (hfit : name.length + 13 ≤ 256)
    (hrx : w.rx = (str_ID ++ name ++ [32, 62, 62, 62]).map some ++ some 10 :: rest) :
    ∃ dev, (bitforce_detect_one opt_bfl_noncerange w).1 = some (some dev) ∧
      dev.name = some (name ++ [32]) := by
  have hline : ∀ c ∈ str_ID ++ name ++ [32, 62, 62, 62], c ≠ 10 := by
    intro c hc
    simp only [List.mem_append] at hc
    rcases hc with (hc | hc) | hc
    · revert c; decide
    · exact (h0 c hc).2
    · revert c; decide
  have hlen : (str_ID ++ name ++ [32, 62, 62, 62]).length = name.length + 11 := by
    simp [str_ID]
  generalize hw1 : BFwrite { w with opens := os } ZGX = w1
  have hrx1 : w1.rx = (str_ID ++ name ++ [32, 62, 62, 62]).map some ++ some 10 :: rest := by
    rw [← hw1]; exact hrx
  have hg := BFgets_line _ hline ((stackbuf w1 256).set 0 0) 256 w1 rest hrx1
    (by omega) (by rw [List.length_set, stackbuf_length, hlen]; omega)
  generalize hX : ((stackbuf w1 256).set 0 0).drop
    ((str_ID ++ name ++ [32, 62, 62, 62]).length + 2) = X at hg
  have hP : str_ID ++ name ++ [32, 62, 62, 62] ++ 10 :: 0 :: X =
      str_ID ++ name ++ 32 :: 62 :: 62 :: 62 :: (10 :: 0 :: X) := by simp
  rw [hP] at hg
  have hhead : (str_ID ++ name ++ 32 :: 62 :: 62 :: 62 :: (10 :: 0 :: X)).headD 0 ≠ 0 := by
    simp [str_ID]
  have hfound : strstr (str_ID ++ name ++ 32 :: 62 :: 62 :: 62 :: (10 :: 0 :: X)) str_SHA256
      ≠ none := by
    obtain ⟨a, b, hab⟩ := hsha
    have e : str_ID ++ name ++ 32 :: 62 :: 62 :: 62 :: (10 :: 0 :: X) =
        (str_ID ++ a) ++ str_SHA256 ++ (b ++ 32 :: 62 :: 62 :: 62 :: (10 :: 0 :: X)) := by
      rw [← hab]; simp
    rw [e]
    unfold strstr
    apply strstr_go_found
    intro c hc
    simp only [List.mem_append] at hc
    rcases hc with hc | hc
    · revert c; decide
    · exact (h0 c (by rw [← hab]; simp [hc])).1
  unfold bitforce_detect_one
  simp only [hopen]
  rw [if_neg hfd]
  simp only [hw1, hg]
  rw [if_neg hhead, if_neg hfound]
  exact ⟨_, rfl, extract_name_line name _ hgt (fun c hc => (h0 c hc).1)⟩

theorem detect_one_name_witness :
    ∃ dev, (bitforce_detect_one true s1_world).1 = some (some dev) ∧
      dev.name = some (s1_name ++ [32]) :=
  detect_one_name true s1_world s1_name 3 [] [] rfl (by decide)
    ⟨[66, 105, 116, 70, 79, 82, 67, 69, 32], [32, 49, 46, 48], rfl⟩
    (fun h => absurd (h.subset (List.mem_cons_self 62 [62, 62])) (by decide))
    (by decide) (by decide) rfl

/-- C7 as stated fails: for the reply ">>>ID: BitFORCE SHA256 1.0 >>>\n" the
device is admitted, but the stored name is "BitFORCE SHA256 1.0 " with the
space that precedes ">>>" (20 bytes), not "BitFORCE SHA256 1.0" (19 bytes). -/
theorem detect_one_name_counterexample :
    s1_world.rx = ([62, 62, 62, 73, 68, 58, 32, 66, 105, 116, 70, 79, 82, 67, 69, 32, 83, 72,
      65, 50, 53, 54, 32, 49, 46, 48, 32, 62, 62, 62, 10].map some) ∧
    ((bitforce_detect_one true s1_world).1.bind id).map (fun dev => dev.name) =
      some (some [66, 105, 116, 70, 79, 82, 67, 69, 32, 83, 72, 65, 50, 53, 54, 32, 49, 46,
        48, 32]) ∧
    ((bitforce_detect_one true s1_world).1.bind id).map (fun dev => dev.name) ≠
      some (some s1_name) := by
  decide

/-! ## Buffer flush -/

theorem BFgets_loop_rx (n : Nat) :
    ∀ (buf buf2 : List Nat) (pos pos2 : Nat) (rx : List (Option Nat)),
      (BFgets_loop buf pos n rx).2.2 = (BFgets_loop buf2 pos2 n rx).2.2 := by
  induction n with
  | zero => intro _ _ _ _ _; rfl
  | succ k ih =>
    intro buf buf2 pos pos2 rx
    simp only [BFgets_loop]
    split_ifs
    · rfl
    · rcases h : read1 rx with ⟨_ | c, rx1⟩
      · rfl
      · simp only []
        split_ifs
        · exact ih _ _ _ _ _
        · rfl

theorem headD_set_pos (buf : List Nat) (pos x : Nat) (h : 1 ≤ pos) :
    (buf.set pos x).headD 0 = buf.headD 0 := by
  cases buf with
  | nil => rfl
  | cons b bs =>
    obtain ⟨p, rfl⟩ : ∃ p, pos = p + 1 := ⟨pos - 1, by omega⟩
    rfl

theorem BFgets_loop_head (n : Nat) :
    ∀ (buf : List Nat) (pos : Nat) (rx : List (Option Nat)), 1 ≤ pos →
      (BFgets_loop buf pos n rx).1.headD 0 = buf.headD 0 ∧
      1 ≤ (BFgets_loop buf pos n rx).2.1 := by
  induction n with
  | zero =>
    intro buf pos rx hp
    exact ⟨headD_set_pos buf pos 0 hp, hp⟩
  | succ k ih =>
    intro buf pos rx hp
    simp only [BFgets_loop]
    split_ifs
    · exact ⟨headD_set_pos buf pos 0 hp, hp⟩
    · rcases h : read1 rx with ⟨_ | c, rx1⟩
      · exact ⟨headD_set_pos buf pos 0 hp, hp⟩
      · simp only []
        split_ifs
        · have := ih ((buf.set pos 0).set pos c) (pos + 1) rx1 (by omega)
          rw [headD_set_pos _ pos c hp, headD_set_pos _ pos 0 hp] at this
          exact this
        · refine ⟨?_, Nat.le_add_left 1 pos⟩
          show ((buf.set pos 0).set pos c).headD 0 = buf.headD 0
          rw [headD_set_pos _ pos c hp, headD_set_pos _ pos 0 hp]

/-- The first byte `BFgets` leaves in a non-empty buffer of capacity at least
two is the first byte read, or NUL when the first read times out. -/
theorem BFgets_rx_head (buf : List Nat) (n : Nat) (rx : List (Option Nat))
    (hb : 1 ≤ buf.length) (hn : 2 ≤ n) :
    (BFgets_rx buf n rx).1.headD 0 = (read1 rx).1.getD 0 := by
  obtain ⟨b, bs, rfl⟩ : ∃ b bs, buf = b :: bs := by
    cases buf with
    | nil => simp at hb
    | cons b bs => exact ⟨b, bs, rfl⟩
  obtain ⟨m, rfl⟩ : ∃ m, n = m + 1 := ⟨n - 1, by omega⟩
  have hm : m ≠ 0 := by omega
  unfold BFgets_rx
  simp only [BFgets_loop, hm, if_false]
  rcases h : read1 rx with ⟨_ | c, rx1⟩
  · rfl
  · simp only [List.set_cons_zero]
    split_ifs with hc
    · have := BFgets_loop_head m (c :: bs) (0 + 1) rx1 (by omega)
      simp only [Option.getD_some]
      rw [headD_set_pos _ _ 0 this.2, this.1]
      rfl
    · rfl

theorem cstr_eq_nil (l : List Nat) : cstr l = [] ↔ l.headD 0 = 0 := by
  cases l with
  | nil => simp [cstr]
  | cons c cs =>
    simp only [cstr, List.headD_cons]
    split_ifs with h <;> simp [h]

theorem BFgets_fresh (buf : List Nat) (w : World) (hb : 1 ≤ buf.length) :
    (BFgets buf 256 w).2.rx = (BFgets_rx (List.replicate 256 0) 256 w.rx).2 ∧
    (BFgets buf 256 w).2.gets_calls = w.gets_calls + 1 ∧
    ((BFgets buf 256 w).1.headD 0 = 0 ↔
      cstr (BFgets_rx (List.replicate 256 0) 256 w.rx).1 = []) := by
  refine ⟨?_, rfl, ?_⟩
  · exact BFgets_loop_rx 256 _ _ _ _ _
  · rw [cstr_eq_nil]
    show (BFgets_rx buf 256 w.rx).1.headD 0 = 0 ↔ _
    rw [BFgets_rx_head buf 256 w.rx hb (by omega),
      BFgets_rx_head _ 256 w.rx (by rw [List.length_replicate]; omega) (by omega)]

theorem clear_buffer_loop_reads :
    ∀ (fuel count : Nat) (pdevbuf : List Nat) (w : World),
      1 ≤ pdevbuf.length → count + fuel = 10 → 1 ≤ fuel →
      (bitforce_clear_buffer_loop pdevbuf count fuel w).gets_calls =
        w.gets_calls +
          min fuel ((read_lines fuel w.rx).findIdx (fun l => l.isEmpty) + 1) := by
  intro fuel
  induction fuel with
  | zero => intro _ _ _ _ _ h; omega
  | succ k ih =>
    intro count pdevbuf w hb hc _
    obtain ⟨h1, h2, h3⟩ := BFgets_fresh (pdevbuf.set 0 0) w (by simpa using hb)
    rw [bitforce_clear_buffer_loop]
    simp only [read_lines, List.findIdx_cons]
    by_cases he : (BFgets (pdevbuf.set 0 0) 256 w).1.headD 0 = 0
    · have he2 := h3.mp he
      rw [if_neg (fun h => h.1 he)]
      simp only [he2, h2, List.isEmpty_nil, cond_true]
      omega
    · have he2 : cstr (BFgets_rx (List.replicate 256 0) 256 w.rx).1 ≠ [] :=
        fun h => he (h3.mpr h)
      have he3 : (cstr (BFgets_rx (List.replicate 256 0) 256 w.rx).1).isEmpty = false := by
        cases hh : cstr (BFgets_rx (List.replicate 256 0) 256 w.rx).1 with
        | nil => exact absurd hh he2
        | cons _ _ => rfl
      simp only [he3, cond_false]
      by_cases hk : count + 1 < 10
      · rw [if_pos ⟨he, hk⟩]
        have hlen : 1 ≤ (BFgets (pdevbuf.set 0 0) 256 w).1.length := by
          cases hh : (BFgets (pdevbuf.set 0 0) 256 w).1 with
          | nil => rw [hh] at he; simp at he
          | cons _ _ => simp
        rw [ih (count + 1) _ _ hlen (by omega) (by omega), h1, h2]
        omega
      · rw [if_neg (fun h => hk h.2), h2]
        omega

/-- C10: on an open session `bitforce_clear_buffer` calls `BFgets` exactly
`min(10, j + 1)` times, where `j` is the index of the first empty line among
the next ten the transport would deliver (`j = 10` when none of them is
empty): at most ten reads, stopping right after the first empty one. -/
theorem clear_buffer_reads (s : cgpu_info) (w : World) (hfd : s.device_fd ≠ 0) :
    (bitforce_clear_buffer s w).gets_calls =
      w.gets_calls + min 10 ((read_lines 10 w.rx).findIdx (fun l => l.isEmpty) + 1) ∧
    (bitforce_clear_buffer s w).gets_calls ≤ w.gets_calls + 10 := by
  unfold bitforce_clear_buffer
  rw [if_neg hfd, clear_buffer_loop_reads 10 0 _ w (by simp [stackbuf_length]) rfl (by omega)]
  exact ⟨rfl, by omega⟩

theorem clear_buffer_reads_witness :
    (bitforce_clear_buffer sim_start (quiet [some 65, some 10, none, some 66] [])).gets_calls =
      (quiet [some 65, some 10, none, some 66] []).gets_calls +
        min 10 ((read_lines 10 (quiet [some 65, some 10, none, some 66] []).rx).findIdx
          (fun l => l.isEmpty) + 1) ∧
    (bitforce_clear_buffer sim_start (quiet [some 65, some 10, none, some 66] [])).gets_calls ≤
      (quiet [some 65, some 10, none, some 66] []).gets_calls + 10 :=
  clear_buffer_reads sim_start (quiet [some 65, some 10, none, some 66] []) (by decide)

/-! ## Range demotion -/

theorem wrote_refl (w : World) : wrote_full_range w w := ⟨[], by simp, by simp⟩

theorem wrote_of_tx_eq {w w2 : World} (h : w2.tx = w.tx) : wrote_full_range w w2 :=
  ⟨[], by simp [h], by simp⟩

theorem wrote_trans {w w2 w3 : World} (h1 : wrote_full_range w w2)
    (h2 : wrote_full_range w2 w3) : wrote_full_range w w3 := by
  obtain ⟨e1, t1, l1⟩ := h1
  obtain ⟨e2, t2, l2⟩ := h2
  refine ⟨e1 ++ e2, by rw [t2, t1, List.append_assoc], ?_⟩
  intro m hm
  rcases List.mem_append.mp hm with h | h
  · exact l1 m h
  · exact l2 m h

theorem wrote_BFwrite (w : World) (bytes : List Nat) (h : bytes.length = 3 ∨ bytes.length = 60) :
    wrote_full_range w (BFwrite w bytes) :=
  ⟨[bytes], rfl, by simpa using h⟩

theorem wrote_BFgets (buf : List Nat) (n : Nat) (w : World) :
    wrote_full_range w (BFgets buf n w).2 := wrote_of_tx_eq rfl

theorem wrote_clear_buffer (s : cgpu_info) (w : World) :
    wrote_full_range w (bitforce_clear_buffer s w) :=
  wrote_of_tx_eq (clear_buffer_frame s w).1

theorem init_loop_wrote :
    ∀ (fuel : Nat) (pdevbuf : List Nat) (retries : Int) (w : World),
      wrote_full_range w (bitforce_init_loop pdevbuf retries fuel w).2 := by
  intro fuel
  induction fuel with
  | zero => intro _ _ w; exact wrote_refl w
  | succ k ih =>
    intro pdevbuf retries w
    have hw : wrote_full_range w (BFgets (pdevbuf.set 0 0) 256 (BFwrite w ZGX)).2 :=
      wrote_trans (wrote_BFwrite w ZGX (Or.inl rfl)) (wrote_BFgets _ _ _)
    rw [bitforce_init_loop]
    dsimp only
    split_ifs
    · exact hw
    · exact wrote_trans hw (ih _ _ _)
    · exact hw

theorem init_sticky (s : cgpu_info) (w : World) (h : s.nonce_range = false) :
    (bitforce_init s w).dev.nonce_range = false ∧
    wrote_full_range w (bitforce_init s w).world := by
  have hc := wrote_clear_buffer s w
  unfold bitforce_init
  dsimp only
  split
  · exact ⟨h, hc⟩
  · rename_i fdDev os hopen
    have ho : wrote_full_range w { bitforce_clear_buffer s w with opens := os } :=
      wrote_trans hc (wrote_of_tx_eq rfl)
    split_ifs
    · exact ⟨h, ho⟩
    · have hl := init_loop_wrote 700
        (stackbuf { bitforce_clear_buffer s w with opens := os } 256) 0
        { bitforce_clear_buffer s w with opens := os }
      split
      · rename_i w2 heq
        rw [heq] at hl
        exact ⟨h, wrote_trans ho hl⟩
      · rename_i pd w2 heq
        rw [heq] at hl
        split_ifs
        · exact ⟨h, wrote_trans ho hl⟩
        · refine ⟨?_, wrote_trans ho hl⟩
          split <;> exact h

theorem flash_led_sticky (s : cgpu_info) (w : World) (h : s.nonce_range = false) :
    (bitforce_flash_led s w).dev.nonce_range = false ∧
    wrote_full_range w (bitforce_flash_led s w).world := by
  unfold bitforce_flash_led
  split_ifs
  · exact ⟨h, wrote_refl w⟩
  · exact ⟨h, wrote_refl w⟩
  · split
    · exact ⟨h, wrote_refl w⟩
    · split_ifs
      · exact ⟨h, wrote_of_tx_eq rfl⟩
      · exact ⟨h, wrote_trans (wrote_of_tx_eq rfl) (wrote_BFwrite _ ZMX (Or.inl rfl))⟩

theorem get_temp_sticky (s : cgpu_info) (w : World) (h : s.nonce_range = false) :
    (bitforce_get_temp s w).dev.nonce_range = false ∧
    wrote_full_range w (bitforce_get_temp s w).world := by
  unfold bitforce_get_temp
  split_ifs
  · exact ⟨h, wrote_refl w⟩
  · exact ⟨h, wrote_refl w⟩
  · exact flash_led_sticky s w h
  · split
    · exact ⟨h, wrote_refl w⟩
    · rename_i l ls hl
      have hw : wrote_full_range w (BFgets
          ((stackbuf (BFwrite { w with trylocks := ls } ZLX) 256).set 0 0) 256
          (BFwrite { w with trylocks := ls } ZLX)).2 :=
        wrote_trans (wrote_trans (wrote_of_tx_eq rfl)
          (wrote_BFwrite { w with trylocks := ls } ZLX (Or.inl rfl))) (wrote_BFgets _ _ _)
      dsimp only
      split_ifs
      · exact ⟨h, wrote_of_tx_eq rfl⟩
      · exact ⟨h, wrote_trans hw (wrote_of_tx_eq rfl)⟩
      · exact ⟨h, hw⟩
      · refine ⟨h, wrote_trans hw (wrote_trans ?_ (wrote_clear_buffer _ _))⟩
        exact wrote_of_tx_eq rfl

theorem thread_prepare_sticky (s : cgpu_info) (w : World) (h : s.nonce_range = false) :
    (bitforce_thread_prepare s w).dev.nonce_range = false ∧
    wrote_full_range w (bitforce_thread_prepare s w).world := by
  unfold bitforce_thread_prepare
  split
  · exact ⟨h, wrote_refl w⟩
  · split_ifs
    · exact ⟨h, wrote_of_tx_eq rfl⟩
    · dsimp only
      split
      · exact ⟨h, wrote_of_tx_eq rfl⟩
      · exact ⟨h, wrote_of_tx_eq rfl⟩

theorem sprintf_length (dst : List Nat) (off : Nat) (str : List Nat) :
    (sprintf dst off str).length = dst.length := memcpy_length _ _ _ _

theorem build_frame_full_range (ob : List Nat) (s : cgpu_info) (wk : work)
    (ho : ob.length = 70) (h : s.nonce_range = false) :
    (bitforce_build_frame ob s wk).1.nonce_range = false ∧
    (bitforce_build_frame ob s wk).2.2.length = 60 := by
  have e : bitforce_build_frame ob s wk =
      ({ s with nonces := 0xffffffff }, { wk with blk_nonce := 0xffffffff },
        (sprintf (memcpy (memcpy (sprintf ob 0 str_GT8) 8 wk.midstate 32) (8 + 32)
          (wk.data.drop 64) 12) (8 + 32 + 12) str_GT8).take 60) := by
    unfold bitforce_build_frame
    dsimp only
    rw [if_pos h]
  rw [e]
  refine ⟨h, ?_⟩
  dsimp only
  rw [List.length_take, sprintf_length, memcpy_length, memcpy_length, sprintf_length, ho]
  rfl

theorem send_frame_sticky (ob pdevbuf : List Nat) (s : cgpu_info) (wk : work) (w : World)
    (ho : ob.length = 70) (h : s.nonce_range = false) :
    (bitforce_send_frame ob pdevbuf s wk w).dev.nonce_range = false ∧
    wrote_full_range w (bitforce_send_frame ob pdevbuf s wk w).world := by
  obtain ⟨h1, h2⟩ := build_frame_full_range ob s wk ho h
  have hw : wrote_full_range w (BFgets (pdevbuf.set 0 0) 256
      (BFwrite w (bitforce_build_frame ob s wk).2.2)).2 :=
    wrote_trans (wrote_BFwrite w _ (Or.inr h2)) (wrote_BFgets _ _ _)
  unfold bitforce_send_frame
  dsimp only
  split_ifs
  · exact ⟨h1, hw⟩
  · exact ⟨h1, hw⟩
  · split
    · exact ⟨h1, hw⟩
    · exact ⟨h1, wrote_trans hw (wrote_of_tx_eq rfl)⟩

theorem send_work_go_sticky (ob : List Nat) (ho : ob.length = 70) :
    ∀ (fuel : Nat) (pdevbuf : List Nat) (s : cgpu_info) (wk : work) (w : World),
      s.nonce_range = false →
      (bitforce_send_work_go ob pdevbuf fuel s wk w).dev.nonce_range = false ∧
      wrote_full_range w (bitforce_send_work_go ob pdevbuf fuel s wk w).world := by
  intro fuel
  induction fuel with
  | zero => intro _ s wk w h; exact ⟨h, wrote_refl w⟩
  | succ k ih =>
    intro pdevbuf s wk w h
    have hw : wrote_full_range w (BFgets (pdevbuf.set 0 0) 256 (BFwrite w ZDX)).2 :=
      wrote_trans (wrote_BFwrite w ZDX (Or.inl rfl)) (wrote_BFgets _ _ _)
    rw [bitforce_send_work_go]
    simp only [h, Bool.false_eq_true, if_false]
    split_ifs with c1 c2
    · split
      · exact ⟨h, hw⟩
      · split_ifs
        · obtain ⟨i1, i2⟩ := ih (BFgets (pdevbuf.set 0 0) 256 (BFwrite w ZDX)).1 s wk _ h
          exact ⟨i1, wrote_trans (wrote_trans hw (wrote_of_tx_eq rfl)) i2⟩
        · exact ⟨h, wrote_trans hw (wrote_of_tx_eq rfl)⟩
    · exact ⟨h, hw⟩
    · obtain ⟨i1, i2⟩ := send_frame_sticky ob
        (BFgets (pdevbuf.set 0 0) 256 (BFwrite w ZDX)).1 s wk _ ho h
      exact ⟨i1, wrote_trans hw i2⟩

theorem send_work_sticky (s : cgpu_info) (wk : work) (w : World) (h : s.nonce_range = false) :
    (bitforce_send_work s wk w).dev.nonce_range = false ∧
    wrote_full_range w (bitforce_send_work s wk w).world := by
  unfold bitforce_send_work
  split_ifs
  · exact ⟨h, wrote_refl w⟩
  · exact send_work_go_sticky _ (by simp [stackbuf_length]) _ _ s wk w h

theorem poll_sticky :
    ∀ (fuel : Nat) (pdevbuf : List Nat) (s : cgpu_info) (w : World),
      (bitforce_get_result_poll pdevbuf fuel s w).dev.nonce_range = s.nonce_range ∧
      wrote_full_range w (bitforce_get_result_poll pdevbuf fuel s w).world := by
  intro fuel
  induction fuel with
  | zero => intro _ s w; exact ⟨rfl, wrote_refl w⟩
  | succ k ih =>
    intro pdevbuf s w
    have hw : wrote_full_range w (BFgets (pdevbuf.set 0 0) 256 (BFwrite w ZFX)).2 :=
      wrote_trans (wrote_BFwrite w ZFX (Or.inl rfl)) (wrote_BFgets _ _ _)
    rw [bitforce_get_result_poll]
    dsimp only
    split
    · exact ⟨rfl, hw⟩
    · split_ifs <;>
        first
        | exact ⟨rfl, wrote_trans hw (wrote_of_tx_eq rfl)⟩
        | (split
           · exact ⟨rfl, wrote_trans hw (wrote_of_tx_eq rfl)⟩
           · split_ifs
             · exact ⟨rfl, wrote_trans hw (wrote_of_tx_eq rfl)⟩
             · obtain ⟨i1, i2⟩ := ih (BFgets (pdevbuf.set 0 0) 256 (BFwrite w ZFX)).1 _ _
               exact ⟨i1, wrote_trans (wrote_trans hw (wrote_of_tx_eq rfl)) i2⟩)

theorem nonces_loop_sticky (pdevbuf : List Nat) :
    ∀ (fuel off : Nat) (nonce : List Nat) (s : cgpu_info) (wk : work) (w : World),
      s.nonce_range = false →
      (bitforce_get_result_nonces pdevbuf fuel off nonce s wk w).1.nonce_range = false ∧
      (bitforce_get_result_nonces pdevbuf fuel off nonce s wk w).2.2.tx = w.tx := by
  intro fuel
  induction fuel with
  | zero => intro _ _ s _ w h; exact ⟨h, rfl⟩
  | succ k ih =>
    intro off nonce s wk w h
    rw [bitforce_get_result_nonces]
    simp only [h, Bool.false_eq_true, false_and, if_false]
    split_ifs
    · exact ⟨h, rfl⟩
    · obtain ⟨i1, i2⟩ := ih (off + 9) _ s wk (submit_nonce w
        (be32toh_mem (hex2bin nonce (pdevbuf.drop off) 4))) h
      exact ⟨i1, i2⟩

theorem parse_sticky (pdevbuf : List Nat) (s : cgpu_info) (wk : work) (w : World)
    (h : s.nonce_range = false) :
    (bitforce_get_result_parse pdevbuf s wk w).dev.nonce_range = false ∧
    wrote_full_range w (bitforce_get_result_parse pdevbuf s wk w).world := by
  unfold bitforce_get_result_parse
  split_ifs
  · exact ⟨h, wrote_refl w⟩
  · exact ⟨h, wrote_refl w⟩
  · refine ⟨h, wrote_trans ?_ (wrote_clear_buffer _ _)⟩
    exact wrote_of_tx_eq rfl
  · obtain ⟨i1, i2⟩ := nonces_loop_sticky pdevbuf 29 12 ((stackbuf w 260).drop 256) s wk w h
    exact ⟨i1, wrote_of_tx_eq i2⟩

theorem reply_sticky (pdevbuf : List Nat) (elapsed : timeval) (s : cgpu_info) (wk : work)
    (w : World) (h : s.nonce_range = false) :
    (bitforce_get_result_reply pdevbuf elapsed s wk w).dev.nonce_range = false ∧
    wrote_full_range w (bitforce_get_result_reply pdevbuf elapsed s wk w).world := by
  unfold bitforce_get_result_reply
  dsimp only
  split_ifs
  · exact ⟨h, wrote_of_tx_eq rfl⟩
  · obtain ⟨i1, i2⟩ := parse_sticky pdevbuf
      (count_hw_error s (dev_error w Reason.REASON_DEV_OVER_HEAT)).1 wk
      (count_hw_error s (dev_error w Reason.REASON_DEV_OVER_HEAT)).2 h
    exact ⟨i1, wrote_trans (wrote_of_tx_eq rfl) i2⟩
  · exact parse_sticky pdevbuf (bitforce_tune s) wk w (by rw [tune_nonce_range]; exact h)
  · exact parse_sticky pdevbuf s wk w h

theorem get_result_sticky (s : cgpu_info) (wk : work) (w : World) (h : s.nonce_range = false) :
    (bitforce_get_result s wk w).dev.nonce_range = false ∧
    wrote_full_range w (bitforce_get_result s wk w).world := by
  obtain ⟨p1, p2⟩ := poll_sticky (w.clock.length + 1) (stackbuf w 256) s w
  unfold bitforce_get_result
  split_ifs
  · exact ⟨h, wrote_refl w⟩
  · cases hp : bitforce_get_result_poll (stackbuf w 256) (w.clock.length + 1) s w with
    | stuck s2 w2 =>
      rw [hp] at p1 p2
      exact ⟨p1.trans h, p2⟩
    | done v s2 w2 =>
      rw [hp] at p1 p2
      exact ⟨p1.trans h, p2⟩
    | reply pd el s2 w2 =>
      rw [hp] at p1 p2
      obtain ⟨i1, i2⟩ := reply_sticky pd el s2 wk w2 (p1.trans h)
      exact ⟨i1, wrote_trans p2 i2⟩

theorem commerr_sticky (s : cgpu_info) (wk : work) (w : World) (h : s.nonce_range = false) :
    (bitforce_commerr s wk w).dev.nonce_range = false ∧
    wrote_full_range w (bitforce_commerr s wk w).world := by
  unfold bitforce_commerr
  dsimp only
  split
  · exact ⟨h, wrote_of_tx_eq rfl⟩
  · split_ifs
    · exact ⟨h, wrote_of_tx_eq rfl⟩
    · refine ⟨h, wrote_trans ?_ (wrote_clear_buffer _ _)⟩
      exact wrote_of_tx_eq rfl

theorem scanhash_sticky (b : Bool) (s : cgpu_info) (wk : work) (w : World)
    (h : s.nonce_range = false) :
    (bitforce_scanhash b s wk w).dev.nonce_range = false ∧
    wrote_full_range w (bitforce_scanhash b s wk w).world := by
  obtain ⟨s1, s2⟩ := send_work_sticky s wk w h
  unfold bitforce_scanhash
  dsimp only
  split
  · exact ⟨s1, s2⟩
  · split_ifs
    · exact ⟨s1, s2⟩
    · obtain ⟨i1, i2⟩ := commerr_sticky _ (bitforce_send_work s wk w).wk _ s1
      exact ⟨i1, wrote_trans s2 i2⟩
  · split
    · exact ⟨s1, s2⟩
    · rename_i v vs hst
      split_ifs
      · exact ⟨s1, wrote_trans s2 (wrote_of_tx_eq rfl)⟩
      · obtain ⟨g1, g2⟩ := get_result_sticky
          { (bitforce_send_work s wk w).dev with
            wait_ms := (bitforce_send_work s wk w).dev.sleep_ms, polling := true }
          (bitforce_send_work s wk w).wk
          { (bitforce_send_work s wk w).world with stales := vs } s1
        have hw := wrote_trans (wrote_trans s2 (wrote_of_tx_eq rfl)) g2
        split
        · exact ⟨g1, hw⟩
        · split_ifs
          · obtain ⟨i1, i2⟩ := commerr_sticky _ _ _ (show ({ (bitforce_get_result _ _ _).dev with polling := false } : cgpu_info).nonce_range = false from g1)
            exact ⟨i1, wrote_trans hw i2⟩
          · exact ⟨g1, hw⟩

theorem run_op_sticky (op : Op) (sw : cgpu_info × World) (h : sw.1.nonce_range = false) :
    (run_op sw op).1.nonce_range = false ∧ wrote_full_range sw.2 (run_op sw op).2 := by
  cases op with
  | send_work wk => exact send_work_sticky sw.1 wk sw.2 h
  | get_result wk => exact get_result_sticky sw.1 wk sw.2 h
  | scanhash b wk => exact scanhash_sticky b sw.1 wk sw.2 h
  | init => exact init_sticky sw.1 sw.2 h
  | get_temp => exact get_temp_sticky sw.1 sw.2 h
  | flash_led => exact flash_led_sticky sw.1 sw.2 h
  | identify => exact ⟨h, wrote_refl sw.2⟩
  | shutdown => exact ⟨h, wrote_refl sw.2⟩
  | thread_prepare => exact thread_prepare_sticky sw.1 sw.2 h

theorem run_ops_sticky (ops : List Op) :
    ∀ sw : cgpu_info × World, sw.1.nonce_range = false →
      (run_ops sw ops).1.nonce_range = false ∧ wrote_full_range sw.2 (run_ops sw ops).2 := by
  induction ops with
  | nil => intro sw h; exact ⟨h, wrote_refl sw.2⟩
  | cons op ops ih =>
    intro sw h
    obtain ⟨h1, h2⟩ := run_op_sticky op sw h
    obtain ⟨h3, h4⟩ := ih (run_op sw op) h1
    exact ⟨h3, wrote_trans h2 h4⟩

/-- C8: range demotion is sticky.  From any session with `nonce_range` false,
after any sequence of the driver operations `bitforce_send_work`,
`bitforce_get_result`, `bitforce_scanhash`, `bitforce_init`,
`bitforce_get_temp`, `bitforce_flash_led`, `bitforce_identify`,
`bitforce_shutdown` and `bitforce_thread_prepare`, in any world (any device
replies, clock readings and host answers, also when the scripted world runs
out in the middle of an operation), `nonce_range` is still false; and
everything written to the device meanwhile is a 3-byte command or a 60-byte
frame, never the 68-byte range frame. -/
theorem range_demotion_sticky (ops : List Op) (s : cgpu_info) (w : World)
    (h : s.nonce_range = false) :
    (run_ops (s, w) ops).1.nonce_range = false ∧
    ∃ extra, (run_ops (s, w) ops).2.tx = w.tx ++ extra ∧
      ∀ m ∈ extra, m.length = 3 ∨ m.length = 60 :=
  run_ops_sticky ops (s, w) h

theorem range_demotion_sticky_witness :
    (run_ops (sim_start, sim_world 500)
      [Op.scanhash false sim_work, Op.get_temp, Op.init, Op.send_work sim_work]).1.nonce_range
        = false ∧
    ∃ extra, (run_ops (sim_start, sim_world 500)
      [Op.scanhash false sim_work, Op.get_temp, Op.init, Op.send_work sim_work]).2.tx =
        (sim_world 500).tx ++ extra ∧
      ∀ m ∈ extra, m.length = 3 ∨ m.length = 60 :=
  range_demotion_sticky
    [Op.scanhash false sim_work, Op.get_temp, Op.init, Op.send_work sim_work]
    sim_start (sim_world 500) rfl

/-! ## Work submission -/

theorem tolower_zero : tolower 0 = 0 := by decide

theorem strncasecmp_OK (l t : List Nat) :
    strncasecmp (l ++ 10 :: t) str_OK 2 = 0 ↔ begins_OK l := by
  have h111 : tolower 79 = 111 := by decide
  have h107 : tolower 75 = 107 := by decide
  have h10 : tolower 10 = 10 := by decide
  unfold begins_OK
  match l with
  | [] =>
    simp only [strncasecmp, str_OK, List.nil_append, List.headD_cons, h111, h10,
      List.getD_eq_getElem?_getD]
    simp [tolower_zero]
  | [a] =>
    simp only [strncasecmp, str_OK, List.cons_append, List.nil_append, List.headD_cons,
      List.tail_cons, h111, h107, h10, List.getD_eq_getElem?_getD]
    by_cases ha : tolower a = 111
    · simp [ha, tolower_zero]
    · simp only [ha, ne_eq, not_false_eq_true, if_true]
      simp [ha]
      omega
  | a :: b :: u =>
    simp only [strncasecmp, str_OK, List.cons_append, List.headD_cons,
      List.tail_cons, h111, h107, List.getD_eq_getElem?_getD]
    by_cases ha : tolower a = 111
    · by_cases hb : tolower b = 107
      · simp [ha, hb]
      · simp [ha, hb]
        omega
    · simp [ha]
      omega

theorem send_work_go_wait (ob pdevbuf : List Nat) (fuel : Nat) (s : cgpu_info) (wk : work)
    (w : World) (pd1 : List Nat) (w1 : World) (rs : List Bool)
    (hg : BFgets (pdevbuf.set 0 0) 256 (BFwrite w (if s.nonce_range then ZPX else ZDX)) =
      (pd1, w1))
    (hB : pd1.headD 0 = 0 ∨ strncasecmp pd1 str_B 1 = 0) (hr : w1.restarts = true :: rs) :
    bitforce_send_work_go ob pdevbuf (fuel + 1) s wk w =
      bitforce_send_work_go ob pd1 fuel s wk { w1 with restarts := rs } := by
  rw [bitforce_send_work_go]
  simp only [hg, hB, if_true, hr]
  simp

theorem send_work_go_refused (ob pdevbuf : List Nat) (fuel : Nat) (s : cgpu_info) (wk : work)
    (w : World) (pd1 : List Nat) (w1 : World)
    (hg : BFgets (pdevbuf.set 0 0) 256 (BFwrite w (if s.nonce_range then ZPX else ZDX)) =
      (pd1, w1))
    (hB : ¬ (pd1.headD 0 = 0 ∨ strncasecmp pd1 str_B 1 = 0))
    (hOK : strncasecmp pd1 str_OK 2 ≠ 0) (hr : s.nonce_range = true) :
    bitforce_send_work_go ob pdevbuf (fuel + 1) s wk w =
      bitforce_send_work_go ob pd1 fuel
        { s with nonce_range := false, sleep_ms := s.sleep_ms * 5 % U32,
                 kname := some Kname.KNAME_WORK } wk w1 := by
  rw [bitforce_send_work_go]
  simp only [hr, if_true] at hg
  simp only [hr, if_true, hg, hB, if_false, hOK, ne_eq, not_false_eq_true]

theorem send_work_go_accept (ob pdevbuf : List Nat) (fuel : Nat) (s : cgpu_info) (wk : work)
    (w : World) (pd1 : List Nat) (w1 : World)
    (hg : BFgets (pdevbuf.set 0 0) 256 (BFwrite w (if s.nonce_range then ZPX else ZDX)) =
      (pd1, w1))
    (hB : ¬ (pd1.headD 0 = 0 ∨ strncasecmp pd1 str_B 1 = 0))
    (hOK : strncasecmp pd1 str_OK 2 = 0) :
    bitforce_send_work_go ob pdevbuf (fuel + 1) s wk w =
      bitforce_send_frame ob pd1 s wk w1 := by
  rw [bitforce_send_work_go]
  simp only [hg, hB, if_false, hOK, ne_eq, not_true_eq_false]

theorem start_cmd_eq (range : Bool) : (if range then ZPX else ZDX) = start_cmd range := rfl

theorem begins_OK_head (l : List Nat) (h : begins_OK l) :
    l.headD 0 ≠ 0 ∧ tolower (l.headD 0) ≠ 98 := by
  unfold begins_OK at h
  match l, h with
  | [], h => simp [tolower_zero] at h
  | a :: u, h =>
    simp only [List.getD_eq_getElem?_getD, List.getElem?_cons_zero, Option.getD_some] at h
    simp only [List.headD_cons]
    constructor
    · intro h0
      rw [h0, tolower_zero] at h
      omega
    · omega

theorem not_busy (l t : List Nat) (h0 : l.headD 10 ≠ 0) (hB : tolower (l.headD 0) ≠ 98) :
    ¬ ((l ++ 10 :: t).headD 0 = 0 ∨ strncasecmp (l ++ 10 :: t) str_B 1 = 0) := by
  have h98 : tolower 66 = 98 := by decide
  match l, h0, hB with
  | [], _, _ =>
    simp only [List.nil_append, List.headD_cons, str_B, strncasecmp_one, h98]
    decide
  | a :: u, h0, hB =>
    simp only [List.headD_cons] at h0 hB
    simp only [List.cons_append, List.headD_cons, str_B, strncasecmp_one, h98]
    tauto

theorem is_busy (l t : List Nat) (hB : tolower (l.headD 0) = 98) :
    (l ++ 10 :: t).headD 0 = 0 ∨ strncasecmp (l ++ 10 :: t) str_B 1 = 0 := by
  have h98 : tolower 66 = 98 := by decide
  match l, hB with
  | [], hB => simp [tolower_zero] at hB
  | a :: u, hB =>
    simp only [List.headD_cons] at hB
    right
    simp only [List.cons_append, str_B, strncasecmp_one, h98, hB]

theorem attempts_length (pre : List Attempt) :
    ∀ range : Bool, attempts_ok range pre →
      pre.length ≤ attempts_waits pre + (if range then 1 else 0) := by
  induction pre with
  | nil => intro _ _; simp [attempts_waits]
  | cons a rest ih =>
    intro range h
    cases a with
    | timeout =>
      have := ih range h
      simp only [attempts_waits, List.length_cons]
      omega
    | busy l =>
      have := ih range h.2.2
      simp only [attempts_waits, List.length_cons]
      omega
    | refused l =>
      obtain ⟨hr, _, _, _, _, h2⟩ := h
      have := ih false h2
      simp only [attempts_waits, List.length_cons, hr, if_true]
      simpa using this

theorem send_work_go_attempts (ob : List Nat) (wk : work) (okl : List Nat)
    (rest : List (Option Nat)) (rs : List Bool) (ho : ob.length = 70)
    (hm : wk.midstate.length = 32) (hd : wk.data.length = 128)
    (hfit : reply_fits okl) (hok : begins_OK okl) :
    ∀ (pre : List Attempt) (pdevbuf : List Nat) (fuel : Nat) (s : cgpu_info) (w : World),
      pdevbuf.length = 256 → attempts_ok s.nonce_range pre →
      w.rx = attempts_rx pre ++ (okl.map some ++ some 10 :: rest) →
      w.restarts = List.replicate (attempts_waits pre) true ++ rs →
      pre.length + 1 ≤ fuel →
      (bitforce_send_work_go ob pdevbuf fuel s wk w).world.tx =
        w.tx ++ attempts_cmds s.nonce_range pre ++
          [start_cmd (mode_after s.nonce_range pre),
           if mode_after s.nonce_range pre = false then
             str_GT8 ++ wk.midstate ++ (wk.data.drop 64).take 12 ++ str_GT8
           else
             str_GT8 ++ wk.midstate ++ (wk.data.drop 64).take 12 ++ be32 wk.blk_nonce ++
               be32 ((wk.blk_nonce + 0x33333332) % U32) ++ str_GT8] := by
  intro pre
  induction pre with
  | nil =>
    intro pdevbuf fuel s w hp _ hrx _ hf
    obtain ⟨f, rfl⟩ : ∃ f, fuel = f + 1 := ⟨fuel - 1, by simp at hf; omega⟩
    simp only [attempts_rx, List.nil_append] at hrx
    have hg := BFgets_line okl hfit.1 (pdevbuf.set 0 0) 256
      (BFwrite w (if s.nonce_range then ZPX else ZDX)) rest hrx
      (by have := hfit.2; omega) (by have := hfit.2; simp [hp]; omega)
    have hh := begins_OK_head okl hok
    have hh10 : okl.headD 10 ≠ 0 := by
      cases okl with
      | nil => decide
      | cons a u => exact hh.1
    rw [send_work_go_accept ob pdevbuf f s wk w _ _ hg (not_busy okl _ hh10 hh.2)
      ((strncasecmp_OK okl _).2 hok), send_frame_tx, build_frame_bytes ob s wk ho hm hd]
    simp only [attempts_cmds, mode_after, List.append_nil, BFwrite, start_cmd_eq,
      List.append_assoc, List.singleton_append]
  | cons a more ih =>
    intro pdevbuf fuel s w hp hpre hrx hrs hf
    obtain ⟨f, rfl⟩ : ∃ f, fuel = f + 1 := ⟨fuel - 1, by simp at hf; omega⟩
    have hf2 : more.length + 1 ≤ f := by simpa using hf
    cases a with
    | timeout =>
      simp only [attempts_rx] at hrx
      simp only [attempts_waits, List.replicate_succ, List.cons_append] at hrs
      have hg := BFgets_timeout (pdevbuf.set 0 0)
        (BFwrite w (if s.nonce_range then ZPX else ZDX)) _ hrx
      have hne : pdevbuf ≠ [] := by
        intro h
        rw [h] at hp
        simp at hp
      obtain ⟨c, t, rfl⟩ := List.exists_cons_of_ne_nil hne
      rw [send_work_go_wait ob _ f s wk w _ _ _ hg (Or.inl (by simp)) hrs]
      refine (ih _ f _ _ ?_ hpre rfl rfl hf2).trans ?_
      · simpa using hp
      simp only [attempts_cmds, mode_after, BFwrite, start_cmd_eq, List.append_assoc,
        List.singleton_append, List.cons_append, List.nil_append]
    | busy l =>
      obtain ⟨hl, hB, hmore⟩ := hpre
      simp only [attempts_rx, List.append_assoc, List.cons_append] at hrx
      simp only [attempts_waits, List.replicate_succ, List.cons_append] at hrs
      have hg := BFgets_line l hl.1 (pdevbuf.set 0 0) 256
        (BFwrite w (if s.nonce_range then ZPX else ZDX)) _ hrx
        (by have := hl.2; omega) (by have := hl.2; simp [hp]; omega)
      rw [send_work_go_wait ob _ f s wk w _ _ _ hg (is_busy l _ hB) hrs]
      refine (ih _ f _ _ ?_ hmore rfl rfl hf2).trans ?_
      · have := hl.2
        simp [hp]
        omega
      simp only [attempts_cmds, mode_after, BFwrite, start_cmd_eq, List.append_assoc,
        List.singleton_append, List.cons_append, List.nil_append]
    | refused l =>
      obtain ⟨hr, hl, h0, hB, hnok, hmore⟩ := hpre
      simp only [attempts_rx, List.append_assoc, List.cons_append] at hrx
      simp only [attempts_waits] at hrs
      have hg := BFgets_line l hl.1 (pdevbuf.set 0 0) 256
        (BFwrite w (if s.nonce_range then ZPX else ZDX)) _ hrx
        (by have := hl.2; omega) (by have := hl.2; simp [hp]; omega)
      rw [send_work_go_refused ob _ f s wk w _ _ hg (not_busy l _ h0 hB)
          (fun h => hnok ((strncasecmp_OK l _).1 h)) hr]
      refine (ih _ f _ _ ?_ ?_ ?_ ?_ hf2).trans ?_
      · have := hl.2
        simp [hp]
        omega
      · exact hmore
      · rfl
      · exact hrs
      simp only [attempts_cmds, mode_after, BFwrite, start_cmd_eq, List.append_assoc,
        List.singleton_append, List.cons_append, List.nil_append, hr]
      rfl

/-- C1: for every work item with a 32-byte midstate and 128 bytes of data, and
for every way the driver can arrive at the device's "OK" (any number of
timed-out or busy replies to the start command, each followed by a
`restart_wait` that lets it continue, and at most one refusal, which turns a
nonce-range session into a full-range one), `bitforce_send_work` sends one
start command per pass and then exactly one work frame.  In full-range mode
the frame is the 60 bytes ">>>>>>>>" ++ midstate[0..32] ++ data[64..76] ++
">>>>>>>>"; in nonce-range mode it is the 68 bytes ">>>>>>>>" ++ midstate ++
data[64..76] ++ BE32(s) ++ BE32((s + 0x33333332) mod 2^32) ++ ">>>>>>>>",
where `s` is the work's starting nonce and BE32 puts the most significant
byte first. -/
theorem send_work_frame (s : cgpu_info) (wk : work) (w : World) (pre : List Attempt)
    (okl : List Nat) (rest : List (Option Nat)) (rs : List Bool)
    (hfd : s.device_fd ≠ 0) (hm : wk.midstate.length = 32) (hd : wk.data.length = 128)
    (hpre : attempts_ok s.nonce_range pre) (hfit : reply_fits okl) (hok : begins_OK okl)
    (hrx : w.rx = attempts_rx pre ++ (okl.map some ++ some 10 :: rest))
    (hrs : w.restarts = List.replicate (attempts_waits pre) true ++ rs) :
    (bitforce_send_work s wk w).world.tx = w.tx ++ attempts_cmds s.nonce_range pre ++
      [if mode_after s.nonce_range pre then [90, 80, 88] else [90, 68, 88],
       if mode_after s.nonce_range pre then
         [62, 62, 62, 62, 62, 62, 62, 62] ++ wk.midstate ++ (wk.data.drop 64).take 12 ++
           [wk.blk_nonce / 2 ^ 24 % 256, wk.blk_nonce / 2 ^ 16 % 256,
            wk.blk_nonce / 2 ^ 8 % 256, wk.blk_nonce % 256] ++
           [(wk.blk_nonce + 0x33333332) % 2 ^ 32 / 2 ^ 24 % 256,
            (wk.blk_nonce + 0x33333332) % 2 ^ 32 / 2 ^ 16 % 256,
            (wk.blk_nonce + 0x33333332) % 2 ^ 32 / 2 ^ 8 % 256,
            (wk.blk_nonce + 0x33333332) % 2 ^ 32 % 256] ++
           [62, 62, 62, 62, 62, 62, 62, 62]
       else
         [62, 62, 62, 62, 62, 62, 62, 62] ++ wk.midstate ++ (wk.data.drop 64).take 12 ++
           [62, 62, 62, 62, 62, 62, 62, 62]] ∧
    ([62, 62, 62, 62, 62, 62, 62, 62] ++ wk.midstate ++ (wk.data.drop 64).take 12 ++
      [62, 62, 62, 62, 62, 62, 62, 62]).length = 60 ∧
    ([62, 62, 62, 62, 62, 62, 62, 62] ++ wk.midstate ++ (wk.data.drop 64).take 12 ++
      [wk.blk_nonce / 2 ^ 24 % 256, wk.blk_nonce / 2 ^ 16 % 256,
       wk.blk_nonce / 2 ^ 8 % 256, wk.blk_nonce % 256] ++
      [(wk.blk_nonce + 0x33333332) % 2 ^ 32 / 2 ^ 24 % 256,
       (wk.blk_nonce + 0x33333332) % 2 ^ 32 / 2 ^ 16 % 256,
       (wk.blk_nonce + 0x33333332) % 2 ^ 32 / 2 ^ 8 % 256,
       (wk.blk_nonce + 0x33333332) % 2 ^ 32 % 256] ++
      [62, 62, 62, 62, 62, 62, 62, 62]).length = 68 := by
  refine ⟨?_, ?_, ?_⟩
  · unfold bitforce_send_work
    rw [if_neg hfd]
    have hp : ((stackbuf w (70 + 256)).drop 70).length = 256 := by
      simp [stackbuf_length]
    have ho : ((stackbuf w (70 + 256)).take 70).length = 70 := by
      simp [stackbuf_length]
    have hf : pre.length + 1 ≤ w.restarts.length + 2 := by
      have := attempts_length pre s.nonce_range hpre
      rw [hrs]
      simp only [List.length_append, List.length_replicate]
      split at this <;> omega
    show (bitforce_send_work_go _ _ (w.restarts.length + 2) s wk w).world.tx = _
    rw [send_work_go_attempts _ wk okl rest rs ho hm hd hfit hok pre _ _ s w hp hpre hrx hrs hf]
    cases mode_after s.nonce_range pre <;> simp [U32, start_cmd, str_GT8, be32]
  · simp [hm, hd]
  · simp [hm, hd]

theorem send_work_frame_witness :
    (sim_range_start.device_fd ≠ 0 ∧ s4_work.midstate.length = 32 ∧
      s4_work.data.length = 128 ∧ attempts_ok sim_range_start.nonce_range s4_attempts ∧
      (bitforce_send_work sim_range_start s4_work (submit_world s4_attempts)).world.tx =
        [[90, 80, 88], [90, 68, 88], [90, 68, 88],
         [62, 62, 62, 62, 62, 62, 62, 62,
          1, 2, 3, 4, 5, 6, 7, 8, 9, 10, 11, 12, 13, 14, 15, 16,
          17, 18, 19, 20, 21, 22, 23, 24, 25, 26, 27, 28, 29, 30, 31, 32,
          64, 65, 66, 67, 68, 69, 70, 71, 72, 73, 74, 75,
          62, 62, 62, 62, 62, 62, 62, 62]]) ∧
    (attempts_ok sim_range_start.nonce_range retry_attempts ∧
      (bitforce_send_work sim_range_start s4_work (submit_world retry_attempts)).world.tx =
        [[90, 80, 88], [90, 80, 88], [90, 80, 88],
         [62, 62, 62, 62, 62, 62, 62, 62,
          1, 2, 3, 4, 5, 6, 7, 8, 9, 10, 11, 12, 13, 14, 15, 16,
          17, 18, 19, 20, 21, 22, 23, 24, 25, 26, 27, 28, 29, 30, 31, 32,
          64, 65, 66, 67, 68, 69, 70, 71, 72, 73, 74, 75,
          0x12, 0x34, 0x56, 0x78, 0x45, 0x67, 0x89, 0xaa,
          62, 62, 62, 62, 62, 62, 62, 62]]) :=
  ⟨⟨by decide, rfl, rfl, by simp [attempts_ok, s4_attempts, reply_fits,
      begins_OK, tolower, sim_range_start],
    (send_work_frame sim_range_start s4_work (submit_world s4_attempts) s4_attempts
      [79, 75] [some 79, some 75, some 10] [] (by decide) rfl rfl
      (by simp [attempts_ok, s4_attempts, reply_fits, begins_OK, tolower, sim_range_start])
      (by simp [reply_fits]) ⟨by decide, by decide⟩ rfl rfl).1.trans rfl⟩,
   ⟨by simp [attempts_ok, retry_attempts, reply_fits, tolower, sim_range_start],
    (send_work_frame sim_range_start s4_work (submit_world retry_attempts) retry_attempts
      [79, 75] [some 79, some 75, some 10] [] (by decide) rfl rfl
      (by simp [attempts_ok, retry_attempts, reply_fits, tolower, sim_range_start])
      (by simp [reply_fits]) ⟨by decide, by decide⟩ rfl rfl).1.trans rfl⟩⟩

end Bitforce
